import Mathlib

/-!
Verification development for the fetch/parse/encode pipeline of the
`aretestsfastyet` repository.

The JavaScript source is shallowly embedded:
* machine numbers that are integral in practice (millisecond offsets, epoch
  milliseconds, byte counts) are modelled as `Int`;
* CPU percentages and the derived per-core thresholds, which are genuinely
  fractional, are modelled as `Rat` (`parseFloat` of a percent string is
  modelled as `Option Rat`, `none` standing for a `NaN` parse);
* JS objects with optional fields become structures with `Option` fields,
  JS falsiness of strings/numbers is modelled explicitly;
* core string operations are implemented on `String.data` character lists so
  that every definition evaluates inside the kernel.
-/

namespace ATFY

/-! ## JS-style string and option helpers -/

/-- JS truthiness of an optional string: `undefined`/`null` and `""` are falsy. -/
def truthyS : Option String → Bool
  | some s => s ≠ ""
  | none => false

/-- JS `a || b` on optional strings. -/
def jsOrS (a b : Option String) : Option String := if truthyS a then a else b

/-- JS `a || "dflt"`: falsy `a` falls back to the default string. -/
def jsOrDefault (a : Option String) (dflt : String) : String :=
  match a with
  | some s => if s = "" then dflt else s
  | none => dflt

/-- JS `a || null` on an optional string (the empty string normalizes to null). -/
def jsOrNull (a : Option String) : Option String := if truthyS a then a else none

/-- JS `n || null` on an optional number (`0` is falsy). -/
def jsOrNullNat (a : Option Nat) : Option Nat :=
  match a with
  | some n => if n = 0 then none else some n
  | none => none

/-- JS `m || null` on an optional integer quantity (`0` is falsy). -/
def jsOrNullInt (a : Option Int) : Option Int :=
  match a with
  | some n => if n = 0 then none else some n
  | none => none

/-- `String.prototype.replace(/\r\n/g, "\n")` on the character list. -/
def replaceCRLF : List Char → List Char
  | '\r' :: '\n' :: rest => '\n' :: replaceCRLF rest
  | c :: rest => c :: replaceCRLF rest
  | [] => []

/-- Normalize line breaks of a string, as the extractor does for SKIP messages. -/
def normalizeMessage (s : String) : String := String.mk (replaceCRLF s.data)

/-- `String.prototype.split(c)` keeping empty pieces, on the character list. -/
def splitOnChar (c : Char) : List Char → List (List Char)
  | [] => [[]]
  | ch :: rest =>
    match splitOnChar c rest with
    | [] => [[ch]]
    | h :: t => if ch = c then [] :: h :: t else (ch :: h) :: t

/-- `String.prototype.includes(c)` for a single-character needle. -/
def strContainsChar (s : String) (c : Char) : Bool := s.data.contains c

/-- `String.prototype.split(c)[i]` (JS yields `undefined` out of range; the
callers only use it where the index is in range, so we default to `""`). -/
def splitIndex (s : String) (c : Char) (i : Nat) : String :=
  ((splitOnChar c s.data).map String.mk).getD i ""

/-- `String.prototype.endsWith(suf)`. -/
def strEndsWith (s suf : String) : Bool :=
  s.data.reverse.take suf.data.length == suf.data.reverse

/-- `String.prototype.startsWith(pre)`. -/
def strStartsWith (s p : String) : Bool := s.data.take p.data.length == p.data

/-- Join character-list pieces with `/`, for rebuilding a directory path. -/
def joinWithSlash : List (List Char) → List Char
  | [] => []
  | [x] => x
  | x :: xs => x ++ '/' :: joinWithSlash xs

/-- The directory part of `fullPath.substring(0, fullPath.lastIndexOf('/'))`
(empty when there is no `/`). -/
def dirPart (full : String) : String :=
  match splitOnChar '/' full.data with
  | [] => ""
  | [_] => ""
  | parts => String.mk (joinWithSlash parts.dropLast)

/-- The file-name part after the last `/` (the whole string when there is no `/`). -/
def namePart (full : String) : String :=
  match splitOnChar '/' full.data with
  | [] => full
  | [_] => full
  | parts => String.mk (parts.getLastD [])

/-- `Array.prototype.indexOf` on a string table: `-1` when absent. -/
def jsIndexOf (l : List String) (s : String) : Int :=
  if s ∈ l then (l.indexOf s : Int) else -1

/-- `Math.round` — durations are integral in this embedding, so it is the
identity on the modelled values. -/
def jsRound (n : Int) : Int := n

/-! ## Artifact (profiler document) data model, from the schema the extractor
consumes: `threads[0].markers` parallel arrays plus `stringArray`, and
`meta` machine metadata. -/

/-- One `markers.data[i]` payload object.  `dtype` is the JS `type`
discriminant (`"Test"`, `"Text"`, `"Mem"`, `"CPU"`, `"Crash"`, or other);
all payload fields are optional, as on a JS object.  `cpuPercent` holds the
`parseFloat` value of the CPU percent string, `none` for a `NaN` parse. -/
structure MarkerData where
  dtype : String
  test : Option String := none
  name : Option String := none
  status : Option String := none
  message : Option String := none
  color : Option String := none
  text : Option String := none
  used : Option Int := none
  cpuPercent : Option Rat := none
  signature : Option String := none
  minidump : Option String := none
deriving DecidableEq, Repr

/-- The marker table of a thread after the presence checks: parallel arrays
indexed by `0 ≤ i < length`.  `data` entries may be `null`. -/
structure Markers where
  length : Nat
  name : List Int
  data : List (Option MarkerData)
  startTime : List Int
  endTime : List Int
deriving DecidableEq, Repr

/-- The raw marker table as found on a thread: `name` and `data` may be
missing entirely (the extractor checks them before use). -/
structure RawMarkers where
  length : Nat
  name : Option (List Int) := none
  data : Option (List (Option MarkerData)) := none
  startTime : List Int := []
  endTime : List Int := []
deriving DecidableEq, Repr

/-- `threads[i]`: markers and the string array may each be missing. -/
structure Thread where
  markers : Option RawMarkers := none
  stringArray : Option (List String) := none
deriving DecidableEq, Repr

/-- `profile.meta` machine metadata. -/
structure Meta where
  startTime : Int := 0
  logicalCPUs : Option Nat := none
  physicalCPUs : Option Nat := none
  mainMemory : Option Int := none
deriving DecidableEq, Repr

/-- A profiler artifact. -/
structure Profile where
  meta : Option Meta := none
  threads : List Thread := []
deriving DecidableEq, Repr

/-- `profile.meta.startTime` (the extractor reads it without an optional
chain; a missing `meta` is out of the modelled claims' scope). -/
def metaStartTime (p : Profile) : Int :=
  match p.meta with
  | some m => m.startTime
  | none => 0

/-! ## Event extractor (`extractTestTimings` and helpers of the worker) -/

/-- One extracted test-run event. -/
structure Timing where
  path : String
  duration : Int
  status : String
  timestamp : Int
  message : Option String := none
  crashSignature : Option String := none
  minidump : Option String := none
deriving DecidableEq, Repr

/-- `extractParallelRanges`: the time ranges of `Text` markers whose text is
exactly `"parallel"`. -/
def extractParallelRanges (m : Markers) : List (Int × Int) :=
  (List.range m.length).filterMap fun i =>
    match m.data.getD i none with
    | some d =>
      if d.dtype = "Text" ∧ d.text = some "parallel" then
        some (m.startTime.getD i 0, m.endTime.getD i 0)
      else none
    | none => none

/-- `isInParallelRange`: does the test's time range overlap some parallel
range (`testStart < range.end && testEnd > range.start`)? -/
def isInParallelRange (testStart testEnd : Int) (ranges : List (Int × Int)) : Bool :=
  ranges.any fun r => testStart < r.2 ∧ testEnd > r.1

/-- A collected crash marker, for later matching with `CRASH` test events. -/
structure CrashMarker where
  testPath : String
  startTime : Int
  signature : Option String
  minidump : Option String
deriving DecidableEq, Repr

/-- The crash-marker collection pass: `Crash` markers with a truthy `test`. -/
def extractCrashMarkers (m : Markers) : List CrashMarker :=
  (List.range m.length).filterMap fun i =>
    match m.data.getD i none with
    | some d =>
      if d.dtype = "Crash" ∧ truthyS d.test then
        some { testPath := d.test.getD "",
               startTime := m.startTime.getD i 0,
               signature := jsOrNull d.signature,
               minidump := jsOrNull d.minidump }
      else none
    | none => none

/-- The status normalization of the structured branch: `FAIL` with green
color is reclassified as `EXPECTED-FAIL`; otherwise `TIMEOUT`/`FAIL`/`PASS`
get a `-PARALLEL`/`-SEQUENTIAL` suffix when parallel markers exist. -/
def computeStatus (status0 : String) (color : Option String)
    (testStart testEnd : Int) (ranges : List (Int × Int)) : String :=
  if status0 = "FAIL" ∧ color = some "green" then "EXPECTED-FAIL"
  else if (status0 = "TIMEOUT" ∨ status0 = "FAIL" ∨ status0 = "PASS") ∧ ranges ≠ [] then
    status0 ++ (if isInParallelRange testStart testEnd ranges then "-PARALLEL" else "-SEQUENTIAL")
  else status0

/-- The colon handling of the structured branch: when the identifier
contains `:`, the code keeps `split(':')[1]`. -/
def stripManifest (p : String) : String :=
  if strContainsChar p ':' then splitIndex p ':' 1 else p

/-- The body of the extractor's per-marker loop: from one marker (its `data`
payload and start/end offsets) to at most one `Timing`. -/
def processTestMarker (mStart : Int) (ranges : List (Int × Int))
    (crashes : List CrashMarker) (data : Option MarkerData)
    (startTime endTime : Int) : Option Timing :=
  match data with
  | none => none
  | some d =>
    let res : Option (String × String × Option String) :=
      if d.dtype = "Test" then
        let rawId := jsOrS d.test d.name
        let status0 := jsOrDefault d.status "UNKNOWN"
        let message := (jsOrNull d.message).map normalizeMessage
        let status := computeStatus status0 d.color startTime endTime ranges
        match rawId with
        | some p => some (stripManifest p, status, message)
        | none => none
      else if d.dtype = "Text" then
        match d.text with
        | some p =>
          if strStartsWith p "replaying full log for " then none
          else some (p, "UNKNOWN", none)
        | none => none
      else none
    match res with
    | none => none
    | some (testPath, status, message) =>
      if truthyS (some testPath) ∧ strEndsWith testPath ".js" then
        let tm : Timing :=
          { path := testPath, duration := endTime - startTime,
            status := status, timestamp := mStart + startTime,
            message := message }
        if status = "CRASH" then
          match crashes.find? fun c =>
              d.test = some c.testPath ∧ startTime ≤ c.startTime ∧ c.startTime ≤ endTime with
          | some c => some { tm with crashSignature := c.signature, minidump := c.minidump }
          | none => some tm
        else some tm
      else none

/-- `extractTestTimings` on a profile: the presence checks, then the
per-marker loop over markers named `"test"`. -/
def extractTestTimings (p : Profile) : List Timing :=
  match p.threads.head? with
  | none => []
  | some th =>
    match th.markers, th.stringArray with
    | some mo, some sa =>
      match mo.name, mo.data with
      | some nm, some dt =>
        let m : Markers :=
          { length := mo.length, name := nm, data := dt,
            startTime := mo.startTime, endTime := mo.endTime }
        let ranges := extractParallelRanges m
        let crashes := extractCrashMarkers m
        let testStringId := jsIndexOf sa "test"
        (List.range m.length).filterMap fun i =>
          if m.name[i]? = some testStringId then
            processTestMarker (metaStartTime p) ranges crashes
              (m.data.getD i none) (m.startTime.getD i 0) (m.endTime.getD i 0)
          else none
      | _, _ => []
    | _, _ => []

/-! ## Resource-usage extraction (`extractResourceUsage`) -/

/-- `machineInfo` as the extractor reports it (`mainMemory` in GB with one
decimal place). -/
structure MachineInfo where
  logicalCPUs : Option Nat
  physicalCPUs : Option Nat
  mainMemory : Option Rat
deriving DecidableEq, Repr

/-- The per-job resource-usage summary. -/
structure ResourceUsage where
  machineInfo : MachineInfo
  maxMemory : Int
  idleTime : Int
  singleCoreTime : Int
  cpuBuckets : List Int
deriving DecidableEq, Repr

/-- `Number.prototype.toFixed(1)` followed by `parseFloat`, for nonnegative
values: round to one decimal place. -/
def toFixed1 (q : Rat) : Rat := ((⌊q * 10 + 1 / 2⌋ : Int) : Rat) / 10

/-- The machine metadata normalization of `extractResourceUsage`
(`|| null` makes a missing or zero entry null; memory is converted to GB). -/
def machineInfoOf (meta : Option Meta) : MachineInfo :=
  { logicalCPUs := jsOrNullNat (meta.bind fun m => m.logicalCPUs),
    physicalCPUs := jsOrNullNat (meta.bind fun m => m.physicalCPUs),
    mainMemory :=
      match jsOrNullInt (meta.bind fun m => m.mainMemory) with
      | some m => some (toFixed1 ((m : Rat) / (1024 * 1024 * 1024)))
      | none => none }

/-- `oneCorePct`: `100 / logicalCPUs`, defaulting to `12.5` (an assumed
8-core machine) when the logical CPU count is unknown. -/
def oneCorePctOf (l : Option Nat) : Rat :=
  match l with
  | some n => 100 / (n : Rat)
  | none => 12.5

/-- The parallel marker arrays flattened into rows `(data[i], startTime[i],
endTime[i])` for `0 ≤ i < length`. -/
def markerRows (len : Nat) (data : List (Option MarkerData))
    (st et : List Int) : List (Option MarkerData × Int × Int) :=
  (List.range len).map fun i => (data.getD i none, st.getD i 0, et.getD i 0)

/-- The running accumulator of the resource-usage loop. -/
structure ResAcc where
  maxMemory : Int
  idleTime : Int
  singleCoreTime : Int
  cpuBuckets : List Int
deriving DecidableEq, Repr

/-- `if (data.used > maxMemory) maxMemory = data.used`. -/
def jsMax (m u : Int) : Int := if u > m then u else m

/-- One iteration of the resource-usage loop.  A `Mem` sample raises the
memory maximum; a `CPU` sample with a parseable percentage updates the idle
and single-core accumulators and its 10%-wide bucket.  A negative
percentage yields a negative bucket index, which in JS lands on a non-index
property: the ten buckets stay unchanged. -/
def resourceStep (idleThreshold singleCoreMin singleCoreMax : Rat)
    (acc : ResAcc) (row : Option MarkerData × Int × Int) : ResAcc :=
  match row.1 with
  | none => acc
  | some d =>
    let duration := row.2.2 - row.2.1
    if d.dtype = "Mem" then
      match d.used with
      | some u => { acc with maxMemory := jsMax acc.maxMemory u }
      | none => acc
    else if d.dtype = "CPU" then
      match d.cpuPercent with
      | none => acc
      | some cp =>
        let acc := if cp < idleThreshold then { acc with idleTime := acc.idleTime + duration } else acc
        let acc :=
          if singleCoreMin ≤ cp ∧ cp ≤ singleCoreMax then
            { acc with singleCoreTime := acc.singleCoreTime + duration }
          else acc
        let bucketIndex : Int := min ⌊cp / 10⌋ 9
        if 0 ≤ bucketIndex then
          { acc with cpuBuckets :=
              acc.cpuBuckets.set bucketIndex.toNat (acc.cpuBuckets.getD bucketIndex.toNat 0 + duration) }
        else acc
    else acc

/-- `extractResourceUsage`: `null` when the thread or its marker data is
missing, otherwise machine info plus the resource aggregates. -/
def extractResourceUsage : Option Profile → Option ResourceUsage
  | none => none
  | some p =>
    match p.threads.head? with
    | none => none
    | some th =>
      match th.markers with
      | none => none
      | some mo =>
        match mo.data with
        | none => none
        | some dt =>
          let machineInfo := machineInfoOf p.meta
          let oneCorePct := oneCorePctOf machineInfo.logicalCPUs
          let idleThreshold := oneCorePct / 2
          let singleCoreMin := oneCorePct * 0.75
          let singleCoreMax := oneCorePct * 1.25
          let acc := (markerRows mo.length dt mo.startTime mo.endTime).foldl
            (resourceStep idleThreshold singleCoreMin singleCoreMax)
            { maxMemory := 0, idleTime := 0, singleCoreTime := 0,
              cpuBuckets := List.replicate 10 0 }
          some { machineInfo := machineInfo, maxMemory := acc.maxMemory,
                 idleTime := acc.idleTime, singleCoreTime := acc.singleCoreTime,
                 cpuBuckets := acc.cpuBuckets }

/-! ### Sample views of a marker table, for stating the resource claims -/

/-- The `(percent, duration)` pairs of the CPU samples of the rows (markers
of type `CPU` whose percent string parses). -/
def cpuSamples (rows : List (Option MarkerData × Int × Int)) : List (Rat × Int) :=
  rows.filterMap fun row =>
    match row.1 with
    | some d =>
      if d.dtype = "CPU" then d.cpuPercent.map fun cp => (cp, row.2.2 - row.2.1)
      else none
    | none => none

/-- The `used` values of the memory samples of the rows. -/
def memSamples (rows : List (Option MarkerData × Int × Int)) : List Int :=
  rows.filterMap fun row =>
    match row.1 with
    | some d => if d.dtype = "Mem" then d.used else none
    | none => none

/-- The bucket index `Math.min(Math.floor(p / 10), 9)` of a CPU
percentage. -/
def bucketOf (cp : Rat) : Int := min ⌊cp / 10⌋ 9

/-- Total duration of the CPU samples below a threshold. -/
def idleSum (th : Rat) (samples : List (Rat × Int)) : Int :=
  ((samples.filter fun sm => sm.1 < th).map Prod.snd).sum

/-- Total duration of the CPU samples inside a closed band. -/
def bandSum (lo hi : Rat) (samples : List (Rat × Int)) : Int :=
  ((samples.filter fun sm => lo ≤ sm.1 ∧ sm.1 ≤ hi).map Prod.snd).sum

/-- Total duration of the CPU samples whose bucket index is `k`. -/
def bucketSum (k : Nat) (samples : List (Rat × Int)) : Int :=
  ((samples.filter fun sm => bucketOf sm.1 = (k : Int)).map Prod.snd).sum

/-- A thread with its marker table spelled out, for stating the resource
claims over an arbitrary well-shaped artifact. -/
def threadOf (len : Nat) (nm : Option (List Int)) (dt : Option (List (Option MarkerData)))
    (st et : List Int) (sa : Option (List String)) : Thread :=
  { markers := some { length := len, name := nm, data := dt, startTime := st, endTime := et },
    stringArray := sa }

/-! ## Worker-side job processing (`processJob`) -/

/-- One extraction result, as the worker returns it and the encoder consumes
it. -/
structure JobResult where
  jobName : String
  taskId : String
  retryId : Nat
  repository : String
  startTime : Int
  timings : List Timing
  resourceUsage : Option ResourceUsage := none
deriving DecidableEq, Repr

/-- An input job descriptor (`start_time` is modelled already converted to a
number; `retry_id` already defaulted by `|| 0`). -/
structure JobDesc where
  task_id : String
  retry_id : Nat := 0
  name : String
  repository : String
  start_time : Int
deriving DecidableEq, Repr

/-- `processJob`, with the artifact fetch abstracted as its outcome: `none`
models every unfetchable artifact (cache corruption followed by network
error, non-success HTTP response, not found). -/
def processJob (fetched : Option Profile) (job : JobDesc) : Option JobResult :=
  if job.task_id = "" then none
  else
    match fetched with
    | none => none
    | some profile =>
      let timings := extractTestTimings profile
      if timings = [] then none
      else some { jobName := job.name, taskId := job.task_id, retryId := job.retry_id,
                  repository := job.repository, startTime := job.start_time,
                  timings := timings, resourceUsage := extractResourceUsage (some profile) }

/-! ## Columnar encoder (`createDataTables`) -/

/-- A `(testId, statusId)` status group: parallel arrays of run-level
fields, with the side-channel arrays present only for SKIP/CRASH groups. -/
structure StatusGroup where
  taskIdIds : List Nat
  durations : List Int
  timestamps : List Int
  messageIds : Option (List (Option Nat)) := none
  crashSignatureIds : Option (List (Option Nat)) := none
  minidumps : Option (List (Option String)) := none
deriving DecidableEq, Repr

/-- The eight deduplicating string tables. -/
structure Tables where
  jobNames : List String := []
  testPaths : List String := []
  testNames : List String := []
  repositories : List String := []
  statuses : List String := []
  taskIds : List String := []
  messages : List String := []
  crashSignatures : List String := []
deriving DecidableEq, Repr

/-- The encoder's working state: tables, task info, test info, the
`fullPath → testId` map (a list whose index is the dense test id), and the
sparse run matrix. -/
structure DataState where
  tables : Tables := {}
  taskRepositoryIds : List Nat := []
  taskJobNameIds : List Nat := []
  testPathIds : List Nat := []
  testNameIds : List Nat := []
  testIdMap : List String := []
  testRuns : List (List (Option StatusGroup)) := []
deriving DecidableEq, Repr

/-- `findStringIndex`: the id of a string in a table, appending it first
when it is new. -/
def findStringIndex (table : List String) (s : String) : Nat × List String :=
  if s ∈ table then (table.indexOf s, table) else (table.length, table ++ [s])

/-- One interning step (just the table component of `findStringIndex`). -/
def insertString (tbl : List String) (s : String) : List String :=
  (findStringIndex tbl s).2

/-- Interning a whole sequence of strings. -/
def internSeq (tbl : List String) (xs : List String) : List String :=
  xs.foldl insertString tbl

/-- The distinct strings of a sequence, in first-seen order. -/
def firstSeen (xs : List String) : List String := internSeq [] xs

/-- `timing.status || 'UNKNOWN'`. -/
def statusOrUnknown (s : String) : String := if s = "" then "UNKNOWN" else s

/-- The combined task token `taskId.retryId`. -/
def taskIdStringOf (r : JobResult) : String :=
  r.taskId ++ "." ++ toString r.retryId

/-- JS `row[i] = v` on an array of optionals, padding holes with
`undefined` when `i` is past the end. -/
def setAt {α : Type} (row : List (Option α)) (i : Nat) (v : α) : List (Option α) :=
  (row ++ List.replicate (i + 1 - row.length) none).set i (some v)

/-- The slot of `testRuns` at `(testId, statusId)`; `none` is a hole. -/
def getSlot (st : DataState) (t s : Nat) : Option StatusGroup :=
  (st.testRuns.getD t []).getD s none

/-- The test-index maintenance of the encoder's inner loop: on a first-seen
full path, intern its directory and file-name parts and create the dense
test entry. -/
def internTestStep (st : DataState) (path : String) : DataState :=
  if path ∈ st.testIdMap then st
  else
    let pr := findStringIndex st.tables.testPaths (dirPart path)
    let nr := findStringIndex st.tables.testNames (namePart path)
    { st with
      tables := { st.tables with testPaths := pr.2, testNames := nr.2 },
      testPathIds := st.testPathIds ++ [pr.1],
      testNameIds := st.testNameIds ++ [nr.1],
      testIdMap := st.testIdMap ++ [path] }

/-- The status group found at a slot, or the fresh group a first event
creates — its side-channel arrays fixed by that event's status. -/
def baseGroup (row : List (Option StatusGroup)) (statusId : Nat) (status : String) :
    StatusGroup :=
  match row.getD statusId none with
  | some g => g
  | none =>
    { taskIdIds := [], durations := [], timestamps := [],
      messageIds := if status = "SKIP" then some [] else none,
      crashSignatureIds := if status = "CRASH" then some [] else none,
      minidumps := if status = "CRASH" then some [] else none }

/-- The group after pushing one run's fields (side-channel pushes only for
the SKIP/CRASH shapes). -/
def updatedGroup (row : List (Option StatusGroup)) (statusId taskIdId : Nat)
    (dur ts : Int) (status : String) (messageId crashSignatureId : Option Nat)
    (minidump : Option String) : StatusGroup :=
  let g0 := baseGroup row statusId status
  { taskIdIds := g0.taskIdIds ++ [taskIdId],
    durations := g0.durations ++ [dur],
    timestamps := g0.timestamps ++ [ts],
    messageIds :=
      if status = "SKIP" then g0.messageIds.map fun l => l ++ [messageId]
      else g0.messageIds,
    crashSignatureIds :=
      if status = "CRASH" then g0.crashSignatureIds.map fun l => l ++ [crashSignatureId]
      else g0.crashSignatureIds,
    minidumps :=
      if status = "CRASH" then g0.minidumps.map fun l => l ++ [minidump]
      else g0.minidumps }

/-- The run-appending tail of the encoder's inner loop: locate or create the
`(testId, statusId)` status group and push the run fields. -/
def appendRun (st : DataState) (testId statusId taskIdId : Nat) (dur ts : Int)
    (status : String) (messageId crashSignatureId : Option Nat)
    (minidump : Option String) : DataState :=
  let row := st.testRuns.getD testId []
  { st with
    testRuns := st.testRuns.set testId
      (setAt row statusId
        (updatedGroup row statusId taskIdId dur ts status messageId crashSignatureId
          minidump)) }

/-- The encoder's inner loop body: fold one timing of one job into the
state.  `jobNameId`/`repositoryId` were interned at the top of the job.
The SKIP-message and CRASH-signature interning, which the source performs
while pushing the run, touches state disjoint from the task-info and row
bookkeeping and is ordered just before them here. -/
def timingStep (jobNameId repositoryId : Nat) (taskIdString : String)
    (st : DataState) (t : Timing) : DataState :=
  let st1 := internTestStep st t.path
  let testId := st1.testIdMap.indexOf t.path
  let sr := findStringIndex st1.tables.statuses (statusOrUnknown t.status)
  let statusId := sr.1
  let st2 := { st1 with tables := { st1.tables with statuses := sr.2 } }
  let tr := findStringIndex st2.tables.taskIds taskIdString
  let taskIdId := tr.1
  let st3 := { st2 with tables := { st2.tables with taskIds := tr.2 } }
  let messageId :=
    if t.status = "SKIP" then
      (jsOrNull t.message).map fun m => (findStringIndex st3.tables.messages m).1
    else none
  let messages :=
    if t.status = "SKIP" then
      (match jsOrNull t.message with
       | some m => insertString st3.tables.messages m
       | none => st3.tables.messages)
    else st3.tables.messages
  let st4 := { st3 with tables := { st3.tables with messages := messages } }
  let crashSignatureId :=
    if t.status = "CRASH" then
      (jsOrNull t.crashSignature).map fun c => (findStringIndex st4.tables.crashSignatures c).1
    else none
  let crashSignatures :=
    if t.status = "CRASH" then
      (match jsOrNull t.crashSignature with
       | some c => insertString st4.tables.crashSignatures c
       | none => st4.tables.crashSignatures)
    else st4.tables.crashSignatures
  let st5 := { st4 with tables := { st4.tables with crashSignatures := crashSignatures } }
  -- task info recorded only on the first occurrence of a task id; ids are
  -- dense, so the undefined check of the source is an append here
  let st6 :=
    if taskIdId < st5.taskRepositoryIds.length then st5
    else
      { st5 with
        taskRepositoryIds := st5.taskRepositoryIds ++ [repositoryId],
        taskJobNameIds := st5.taskJobNameIds ++ [jobNameId] }
  -- ensure the test row exists
  let st7 :=
    if testId < st6.testRuns.length then st6
    else { st6 with testRuns := st6.testRuns ++ [[]] }
  appendRun st7 testId statusId taskIdId (jsRound t.duration) t.timestamp t.status
    messageId crashSignatureId (jsOrNull t.minidump)

/-- The encoder's outer loop body: intern the job-level strings, then fold
the job's timings. -/
def jobStep (st : DataState) (r : JobResult) : DataState :=
  let jr := findStringIndex st.tables.jobNames r.jobName
  let st := { st with tables := { st.tables with jobNames := jr.2 } }
  let rr := findStringIndex st.tables.repositories r.repository
  let st := { st with tables := { st.tables with repositories := rr.2 } }
  r.timings.foldl (timingStep jr.1 rr.1 (taskIdStringOf r)) st

/-- `createDataTables` over the collected job results. -/
def createDataTables (results : List JobResult) : DataState :=
  results.foldl jobStep {}

/-! ### Encounter sequences, for the first-seen-order characterization -/

/-- Job names in input iteration order. -/
def jobNameEncounters (results : List JobResult) : List String :=
  results.map fun r => r.jobName

/-- Repositories in input iteration order. -/
def repositoryEncounters (results : List JobResult) : List String :=
  results.map fun r => r.repository

/-- Normalized statuses, one per folded timing, in iteration order. -/
def statusEncounters (results : List JobResult) : List String :=
  results.flatMap fun r => r.timings.map fun t => statusOrUnknown t.status

/-- Task tokens, one per folded timing, in iteration order. -/
def taskIdEncounters (results : List JobResult) : List String :=
  results.flatMap fun r => r.timings.map fun _ => taskIdStringOf r

/-- Truthy SKIP messages in iteration order. -/
def messageEncounters (results : List JobResult) : List String :=
  results.flatMap fun r => r.timings.filterMap fun t =>
    if t.status = "SKIP" then jsOrNull t.message else none

/-- Truthy CRASH signatures in iteration order. -/
def crashSigEncounters (results : List JobResult) : List String :=
  results.flatMap fun r => r.timings.filterMap fun t =>
    if t.status = "CRASH" then jsOrNull t.crashSignature else none

/-- Full test paths, one per folded timing, in iteration order. -/
def allPaths (results : List JobResult) : List String :=
  results.flatMap fun r => r.timings.map fun t => t.path

/-! ### Named views of one `timingStep`, used to state its effect -/

/-- The test id a timing resolves to after the test-index maintenance. -/
def stepTestId (st : DataState) (tm : Timing) : Nat :=
  (internTestStep st tm.path).testIdMap.indexOf tm.path

/-- The status id a timing's normalized status is interned at. -/
def stepStatusId (st : DataState) (tm : Timing) : Nat :=
  (findStringIndex st.tables.statuses (statusOrUnknown tm.status)).1

/-- The task id the combined task token is interned at. -/
def stepTaskIdId (st : DataState) (task : String) : Nat :=
  (findStringIndex st.tables.taskIds task).1

/-- The message id pushed for a SKIP timing (null otherwise). -/
def stepMessageId (st : DataState) (tm : Timing) : Option Nat :=
  if tm.status = "SKIP" then
    (jsOrNull tm.message).map fun m => (findStringIndex st.tables.messages m).1
  else none

/-- The messages table after one timing. -/
def stepMessages (st : DataState) (tm : Timing) : List String :=
  if tm.status = "SKIP" then
    match jsOrNull tm.message with
    | some m => insertString st.tables.messages m
    | none => st.tables.messages
  else st.tables.messages

/-- The crash-signature id pushed for a CRASH timing (null otherwise). -/
def stepCrashSigId (st : DataState) (tm : Timing) : Option Nat :=
  if tm.status = "CRASH" then
    (jsOrNull tm.crashSignature).map fun c => (findStringIndex st.tables.crashSignatures c).1
  else none

/-- The crash-signature table after one timing. -/
def stepCrashSigs (st : DataState) (tm : Timing) : List String :=
  if tm.status = "CRASH" then
    match jsOrNull tm.crashSignature with
    | some c => insertString st.tables.crashSignatures c
    | none => st.tables.crashSignatures
  else st.tables.crashSignatures

/-! ### Encoder invariants (the verified properties of `createDataTables`) -/

/-- The shape and validity invariant of one status group stored at status
id `s`. -/
structure GroupInv (tables : Tables) (s : Nat) (g : StatusGroup) : Prop where
  nonempty : g.taskIdIds ≠ []
  taskValid : ∀ x ∈ g.taskIdIds, x < tables.taskIds.length
  durLen : g.durations.length = g.taskIdIds.length
  tsLen : g.timestamps.length = g.taskIdIds.length
  msgIff : g.messageIds.isSome ↔ tables.statuses.getD s "" = "SKIP"
  csIff : g.crashSignatureIds.isSome ↔ tables.statuses.getD s "" = "CRASH"
  mdIff : g.minidumps.isSome ↔ tables.statuses.getD s "" = "CRASH"
  msgLen : ∀ ml, g.messageIds = some ml → ml.length = g.taskIdIds.length
  msgValid : ∀ ml, g.messageIds = some ml → ∀ o ∈ ml, ∀ x, o = some x →
    x < tables.messages.length
  csLen : ∀ cl, g.crashSignatureIds = some cl → cl.length = g.taskIdIds.length
  csValid : ∀ cl, g.crashSignatureIds = some cl → ∀ o ∈ cl, ∀ x, o = some x →
    x < tables.crashSignatures.length
  mdLen : ∀ dl, g.minidumps = some dl → dl.length = g.taskIdIds.length

/-- The global encoder-state invariant: deduplicated tables, aligned dense
index arrays, and every stored id a valid index of its table. -/
structure EncInv (st : DataState) : Prop where
  ndJobNames : st.tables.jobNames.Nodup
  ndTestPaths : st.tables.testPaths.Nodup
  ndTestNames : st.tables.testNames.Nodup
  ndRepos : st.tables.repositories.Nodup
  ndStatuses : st.tables.statuses.Nodup
  ndTaskIds : st.tables.taskIds.Nodup
  ndMessages : st.tables.messages.Nodup
  ndCrashSigs : st.tables.crashSignatures.Nodup
  ndMap : st.testIdMap.Nodup
  lenRepo : st.taskRepositoryIds.length = st.tables.taskIds.length
  lenJob : st.taskJobNameIds.length = st.tables.taskIds.length
  lenPath : st.testPathIds.length = st.testIdMap.length
  lenName : st.testNameIds.length = st.testIdMap.length
  lenRuns : st.testRuns.length = st.testIdMap.length
  validRepo : ∀ x ∈ st.taskRepositoryIds, x < st.tables.repositories.length
  validJob : ∀ x ∈ st.taskJobNameIds, x < st.tables.jobNames.length
  validPath : ∀ x ∈ st.testPathIds, x < st.tables.testPaths.length
  validName : ∀ x ∈ st.testNameIds, x < st.tables.testNames.length
  rowLen : ∀ row ∈ st.testRuns, row.length ≤ st.tables.statuses.length
  groups : ∀ t s g, getSlot st t s = some g → GroupInv st.tables s g

/-- Some timing of some processed job resolves, against the tables of `st`,
to the id pair `(t, s)`. -/
def FoldedEvent (st : DataState) (results : List JobResult) (t s : Nat) : Prop :=
  ∃ r ∈ results, ∃ tm ∈ r.timings,
    tm.path ∈ st.testIdMap ∧ st.testIdMap.indexOf tm.path = t ∧
    statusOrUnknown tm.status ∈ st.tables.statuses ∧
    st.tables.statuses.indexOf (statusOrUnknown tm.status) = s

/-- The full loop invariant of the encoding pass over `processed` job
results: the state invariant, the sparse-occupancy characterization, and
the first-seen-order characterization of every string table. -/
structure PState (processed : List JobResult) (st : DataState) : Prop where
  inv : EncInv st
  occ : ∀ t s, (getSlot st t s).isSome = true ↔ FoldedEvent st processed t s
  interned : ∀ r ∈ processed, ∀ tm ∈ r.timings,
    tm.path ∈ st.testIdMap ∧ statusOrUnknown tm.status ∈ st.tables.statuses
  jn : st.tables.jobNames = firstSeen (jobNameEncounters processed)
  rp : st.tables.repositories = firstSeen (repositoryEncounters processed)
  stt : st.tables.statuses = firstSeen (statusEncounters processed)
  tid : st.tables.taskIds = firstSeen (taskIdEncounters processed)
  msg : st.tables.messages = firstSeen (messageEncounters processed)
  csg : st.tables.crashSignatures = firstSeen (crashSigEncounters processed)
  map : st.testIdMap = firstSeen (allPaths processed)
  tps : st.tables.testPaths = firstSeen ((firstSeen (allPaths processed)).map dirPart)
  tns : st.tables.testNames = firstSeen ((firstSeen (allPaths processed)).map namePart)

/-! ## Differential timestamp compression (`processJobsAndCreateData`) -/

/-- A status group after compression (timestamps delta-encoded). -/
structure EncodedGroup where
  taskIdIds : List Nat
  durations : List Int
  timestamps : List Int
  messageIds : Option (List (Option Nat)) := none
  crashSignatureIds : Option (List (Option Nat)) := none
  minidumps : Option (List (Option String)) := none
deriving DecidableEq, Repr

/-- The per-run object built before sorting. -/
structure Run where
  timestamp : Int
  taskIdId : Nat
  duration : Int
  crashSignatureId : Option Nat := none
  minidump : Option String := none
  messageId : Option Nat := none
deriving DecidableEq, Repr

/-- `Math.floor(ts / 1000) - startTime`: absolute epoch-ms timestamps become
seconds relative to the dataset start. -/
def relTimestamp (startTime ts : Int) : Int := Int.fdiv ts 1000 - startTime

/-- The run objects of one group, with timestamps already made relative. -/
def groupRuns (startTime : Int) (g : StatusGroup) : List Run :=
  (List.range g.timestamps.length).map fun i =>
    { timestamp := relTimestamp startTime (g.timestamps.getD i 0),
      taskIdId := g.taskIdIds.getD i 0,
      duration := g.durations.getD i 0,
      crashSignatureId := (g.crashSignatureIds.getD []).getD i none,
      minidump := (g.minidumps.getD []).getD i none,
      messageId := (g.messageIds.getD []).getD i none }

/-- The sort order `(a, b) => a.timestamp - b.timestamp`. -/
def runLE (a b : Run) : Prop := a.timestamp ≤ b.timestamp

instance : DecidableRel runLE := fun a b =>
  inferInstanceAs (Decidable (a.timestamp ≤ b.timestamp))

instance : IsTotal Run runLE := ⟨fun a b => Int.le_total a.timestamp b.timestamp⟩

instance : IsTrans Run runLE := ⟨fun _ _ _ h h' => le_trans h h'⟩

/-- The differential compression loop: each value minus the previous one,
the first relative to `prev` (`0` at the top-level call). -/
def deltaEncode : Int → List Int → List Int
  | _, [] => []
  | prev, x :: xs => (x - prev) :: deltaEncode x xs

/-- Cumulative summation, the decoder of `deltaEncode`. -/
def cumsum : Int → List Int → List Int
  | _, [] => []
  | prev, d :: ds => (prev + d) :: cumsum (prev + d) ds

/-- The per-group compression pass: build runs, sort by timestamp (a stable
sort, as JS guarantees), delta-encode, and write the arrays back, the
side-channel arrays only when present. -/
def encodeGroup (startTime : Int) (g : StatusGroup) : EncodedGroup :=
  let runs := List.insertionSort runLE (groupRuns startTime g)
  { taskIdIds := runs.map Run.taskIdId,
    durations := runs.map Run.duration,
    timestamps := deltaEncode 0 (runs.map Run.timestamp),
    messageIds := g.messageIds.map fun _ => runs.map Run.messageId,
    crashSignatureIds := g.crashSignatureIds.map fun _ => runs.map Run.crashSignatureId,
    minidumps := g.minidumps.map fun _ => runs.map Run.minidump }

/-- The whole-dataset compression pass: every group independently. -/
def encodeTestRuns (startTime : Int) (st : DataState) : List (List (Option EncodedGroup)) :=
  st.testRuns.map fun row => row.map fun og => og.map (encodeGroup startTime)

/-! ## Worker pool coordinator (`processJobsWithWorkers`) -/

/-- Messages and events the coordinator reacts to: the three worker
messages, plus the worker `error` and `exit` events. -/
inductive WorkerMsg where
  | ready (w : Nat)
  | jobComplete (w : Nat) (result : Option JobResult)
  | finished (w : Nat)
  | errorReport (w : Nat) (e : String)
  | threadError (w : Nat) (e : String)
  | workerExit (w : Nat) (code : Int)
deriving DecidableEq, Repr

/-- The settlement of the coordinator's promise. -/
inductive BatchOutcome where
  | success (results : List JobResult)
  | failure (e : String)
deriving DecidableEq, Repr

/-- The coordinator's state.  `settled` is the promise: the first
`resolve`/`reject` wins, later ones are no-ops.  `resolvedFlag` is the
source's `resolved` variable (set only on the resolve path).
`assignedJobs` and `shutdownsSent` record the messages sent to workers. -/
structure CoordState where
  queue : List JobDesc
  assignedJobs : List JobDesc := []
  shutdownsSent : Nat := 0
  results : List JobResult := []
  workersFinished : Nat := 0
  resolvedFlag : Bool := false
  settled : Option BatchOutcome := none
deriving DecidableEq, Repr

/-- Settle the promise (a no-op when already settled). -/
def settle (st : CoordState) (o : BatchOutcome) : CoordState :=
  match st.settled with
  | some _ => st
  | none => { st with settled := some o }

/-- `assignNextJob`: hand the next queued descriptor to the worker, or send
a shutdown when the queue is empty. -/
def assignNextJob (st : CoordState) : CoordState :=
  match st.queue with
  | j :: rest => { st with queue := rest, assignedJobs := st.assignedJobs ++ [j] }
  | [] => { st with shutdownsSent := st.shutdownsSent + 1 }

/-- One coordinator reaction, for a pool of `W` workers. -/
def coordStep (W : Nat) (st : CoordState) (m : WorkerMsg) : CoordState :=
  match m with
  | .ready _ => assignNextJob st
  | .jobComplete _ r =>
    let st :=
      match r with
      | some jr => { st with results := st.results ++ [jr] }
      | none => st
    assignNextJob st
  | .finished _ =>
    if st.resolvedFlag then st
    else
      let st := { st with workersFinished := st.workersFinished + 1 }
      if W ≤ st.workersFinished then
        settle { st with resolvedFlag := true } (BatchOutcome.success st.results)
      else st
  | .errorReport _ e => settle st (BatchOutcome.failure e)
  | .threadError _ e => settle st (BatchOutcome.failure e)
  | .workerExit _ code =>
    if code ≠ 0 then settle st (BatchOutcome.failure "worker stopped with nonzero exit code")
    else st

/-- Run the coordinator over an observed sequence of worker messages. -/
def runCoord (W : Nat) (jobs : List JobDesc) (trace : List WorkerMsg) : CoordState :=
  trace.foldl (coordStep W) { queue := jobs }

/-- A worker fault: an error message, an `error` event, or a nonzero exit. -/
def isFault : WorkerMsg → Bool
  | .errorReport _ _ => true
  | .threadError _ _ => true
  | .workerExit _ code => code ≠ 0
  | _ => false

/-- Is this a `finished` acknowledgment? -/
def isFinishedMsg : WorkerMsg → Bool
  | .finished _ => true
  | _ => false

/-- How many workers have acknowledged shutdown in a message sequence. -/
def countFinished (trace : List WorkerMsg) : Nat :=
  (trace.filter isFinishedMsg).length

/-! ## Concrete inputs used by counterexamples and witnesses -/

/-- A structured test marker whose identifier holds two `:` separators. -/
def rmTwoColons : RawMarkers :=
  { length := 1, name := some [0],
    data := some [some { dtype := "Test", test := some "a:b.js:c.js", status := some "PASS" }],
    startTime := [0], endTime := [5] }

/-- Artifact with a single structured `PASS` marker whose test identifier is
`a:b.js:c.js`. -/
def profTwoColons : Profile :=
  { meta := some { startTime := 100 },
    threads := [{ markers := some rmTwoColons, stringArray := some ["test"] }] }

/-- A parallel-execution marker covering `[0, 10]` plus a structured `FAIL`
marker with green color inside that range. -/
def rmGreenFail : RawMarkers :=
  { length := 2, name := some [1, 0],
    data := some
      [some { dtype := "Text", text := some "parallel" },
       some { dtype := "Test", test := some "m.toml:x/t.js",
              status := some "FAIL", color := some "green" }],
    startTime := [0, 1], endTime := [10, 5] }

/-- The structured green-`FAIL` marker payload itself. -/
def greenFailMarker : MarkerData :=
  { dtype := "Test", test := some "m.toml:x/t.js", status := some "FAIL",
    color := some "green" }

/-- Artifact for the `FAIL`-with-green-color case under an overlapping
parallel range. -/
def profGreenFail : Profile :=
  { meta := some { startTime := 100 },
    threads := [{ markers := some rmGreenFail, stringArray := some ["test", "other"] }] }

/-- One CPU sample whose percent string parses negative (e.g. `"-10%"`),
lasting 7 ms; no machine metadata. -/
def rmNegCpu : RawMarkers :=
  { length := 1, name := some [0],
    data := some [some { dtype := "CPU", cpuPercent := some (-10) }],
    startTime := [0], endTime := [7] }

/-- Artifact for the negative-CPU-percentage case. -/
def profNegCpu : Profile := { meta := none, threads := [{ markers := some rmNegCpu }] }

/-- Artifact whose metadata has a physical CPU count but no logical CPU
count, with empty (but present) marker data. -/
def profNoLogical : Profile :=
  { meta := some { physicalCPUs := some 4 },
    threads := [{ markers := some { length := 0, data := some [] } }] }

/-- Two SKIP runs of one test — one with a message, one without — plus one
PASS run, from one job. -/
def skipJobResult : JobResult :=
  { jobName := "test-linux/opt-xpcshell", taskId := "Tsk", retryId := 1,
    repository := "try", startTime := 0,
    timings :=
      [{ path := "a/b.js", duration := 1, status := "SKIP", timestamp := 1000,
         message := some "skip-if: os == linux" },
       { path := "a/b.js", duration := 2, status := "SKIP", timestamp := 2000 },
       { path := "a/b.js", duration := 3, status := "PASS", timestamp := 3000 }] }


/-- Some timing of some processed job resolves, against the tables of `st`,
to the id pair `(t, s)` and has the given normalized status. -/
def FoldedEventWithStatus (st : DataState) (results : List JobResult) (t s : Nat)
    (status : String) : Prop :=
  ∃ r ∈ results, ∃ tm ∈ r.timings,
    tm.path ∈ st.testIdMap ∧ st.testIdMap.indexOf tm.path = t ∧
    statusOrUnknown tm.status ∈ st.tables.statuses ∧
    st.tables.statuses.indexOf (statusOrUnknown tm.status) = s ∧
    statusOrUnknown tm.status = status

/-! # Theorems -/

/-! ## Delta-compression round trip (C3) -/

theorem cumsum_deltaEncode (p : Int) (l : List Int) : cumsum p (deltaEncode p l) = l := by
  induction l generalizing p with
  | nil => rfl
  | cons x xs ih =>
    show (p + (x - p)) :: cumsum (p + (x - p)) (deltaEncode x xs) = x :: xs
    have h : p + (x - p) = x := by omega
    rw [h, ih x]

theorem range_map_getD {α β : Type} (d : α) (f : α → β) (l : List α) :
    (List.range l.length).map (fun i => f (l.getD i d)) = l.map f := by
  induction l with
  | nil => rfl
  | cons x xs ih =>
    show (List.range (xs.length + 1)).map (fun i => f ((x :: xs).getD i d)) = f x :: xs.map f
    rw [List.range_succ_eq_map]
    simp only [List.map_cons, List.map_map]
    refine congrArg (f x :: ·) ?_
    calc (List.range xs.length).map ((fun i => f ((x :: xs).getD i d)) ∘ Nat.succ)
        = (List.range xs.length).map (fun i => f (xs.getD i d)) := by
          refine List.map_congr_left fun i _ => ?_
          rfl
      _ = xs.map f := ih

theorem groupRuns_map_timestamp (startTime : Int) (g : StatusGroup) :
    (groupRuns startTime g).map Run.timestamp
      = g.timestamps.map (relTimestamp startTime) := by
  unfold groupRuns
  rw [List.map_map]
  exact range_map_getD 0 (fun ts => relTimestamp startTime ts) g.timestamps

theorem map_timestamp_insertionSort (rs : List Run) :
    (List.insertionSort runLE rs).map Run.timestamp
      = List.insertionSort (· ≤ ·) (rs.map Run.timestamp) := by
  refine List.eq_of_perm_of_sorted (r := (· ≤ · : Int → Int → Prop)) ?_ ?_ ?_
  · exact ((List.perm_insertionSort runLE rs).map Run.timestamp).trans
      (List.perm_insertionSort (· ≤ ·) (rs.map Run.timestamp)).symm
  · exact List.pairwise_map.mpr (List.sorted_insertionSort runLE rs)
  · exact List.sorted_insertionSort (· ≤ ·) (rs.map Run.timestamp)

/-- Claim C3: cumulatively summing a StatusGroup's delta-encoded timestamps
reproduces exactly the group's own sorted pre-delta timestamps (each event
timestamp converted by `Math.floor(ts/1000) - startTime`); the first delta
is relative to zero, so the first entry of the cumulative sum is the first
sorted timestamp itself; and each group is sorted and delta-encoded
independently — `encodeGroup` is a function of the single group, applied
pointwise over the dataset by `encodeTestRuns`. -/
theorem c3_delta_roundtrip : ∀ (startTime : Int) (g : StatusGroup),
    cumsum 0 ((encodeGroup startTime g).timestamps)
        = List.insertionSort (· ≤ ·) (g.timestamps.map (relTimestamp startTime))
      ∧ ((encodeGroup startTime g).timestamps).head?
          = (List.insertionSort (· ≤ ·) (g.timestamps.map (relTimestamp startTime))).head?
      ∧ ∀ (ds : DataState),
          encodeTestRuns startTime ds
            = ds.testRuns.map fun row => row.map fun og => og.map (encodeGroup startTime) := by
  intro startTime g
  have hsorted : (encodeGroup startTime g).timestamps
      = deltaEncode 0 (List.insertionSort (· ≤ ·) (g.timestamps.map (relTimestamp startTime))) := by
    show deltaEncode 0 ((List.insertionSort runLE (groupRuns startTime g)).map Run.timestamp) = _
    rw [map_timestamp_insertionSort, groupRuns_map_timestamp]
  refine ⟨?_, ?_, fun ds => rfl⟩
  · rw [hsorted, cumsum_deltaEncode]
  · rw [hsorted]
    cases List.insertionSort (· ≤ ·) (g.timestamps.map (relTimestamp startTime)) with
    | nil => rfl
    | cons x xs =>
      show some (x - 0) = some x
      rw [Int.sub_zero]

/-! ## Coordinator failure semantics (C7) -/

theorem assignNextJob_settled (st : CoordState) :
    (assignNextJob st).settled = st.settled := by
  unfold assignNextJob; cases st.queue <;> rfl

theorem assignNextJob_workersFinished (st : CoordState) :
    (assignNextJob st).workersFinished = st.workersFinished := by
  unfold assignNextJob; cases st.queue <;> rfl

theorem assignNextJob_resolvedFlag (st : CoordState) :
    (assignNextJob st).resolvedFlag = st.resolvedFlag := by
  unfold assignNextJob; cases st.queue <;> rfl

theorem settle_workersFinished (st : CoordState) (o : BatchOutcome) :
    (settle st o).workersFinished = st.workersFinished := by
  unfold settle; cases st.settled <;> rfl

theorem settle_resolvedFlag (st : CoordState) (o : BatchOutcome) :
    (settle st o).resolvedFlag = st.resolvedFlag := by
  unfold settle; cases st.settled <;> rfl

theorem settle_settled (st : CoordState) (o : BatchOutcome) :
    (settle st o).settled = some (st.settled.getD o) := by
  rcases h : st.settled with _ | x <;> simp [settle, h]

/-- `1` for a `finished` acknowledgment, `0` for every other message. -/
def finCount : WorkerMsg → Nat
  | .finished _ => 1
  | _ => 0

theorem countFinished_nil : countFinished [] = 0 := rfl

theorem countFinished_cons (m : WorkerMsg) (l : List WorkerMsg) :
    countFinished (m :: l) = finCount m + countFinished l := by
  cases m <;> simp [countFinished, List.filter_cons, isFinishedMsg, finCount]
  omega

/-- Reindexing the early-fault condition across one consumed message. -/
theorem faultIndex_cons (W c : Nat) (m : WorkerMsg) (rest : List WorkerMsg) (Ψ : Prop) :
    ((Ψ ∨ (isFault m = true ∧ c < W)) ∨ ∃ i, ∃ h : i < rest.length,
        isFault (rest.get ⟨i, h⟩) = true ∧
          (c + finCount m) + countFinished (rest.take i) < W) ↔
      (Ψ ∨ ∃ i, ∃ h : i < (m :: rest).length,
        isFault ((m :: rest).get ⟨i, h⟩) = true ∧ c + countFinished ((m :: rest).take i) < W) := by
  constructor
  · rintro ((hψ | ⟨hf, hc⟩) | ⟨i, hi, hf, hc⟩)
    · exact Or.inl hψ
    · refine Or.inr ⟨0, Nat.succ_pos _, hf, ?_⟩
      simpa [countFinished_nil] using hc
    · refine Or.inr ⟨i + 1, Nat.succ_lt_succ hi, hf, ?_⟩
      show c + countFinished (m :: rest.take i) < W
      rw [countFinished_cons]
      omega
  · rintro (hψ | ⟨i, hi, hf, hc⟩)
    · exact Or.inl (Or.inl hψ)
    · cases i with
      | zero =>
        refine Or.inl (Or.inr ⟨hf, ?_⟩)
        simpa [countFinished_nil] using hc
      | succ j =>
        refine Or.inr ⟨j, Nat.lt_of_succ_lt_succ hi, hf, ?_⟩
        have hc' : c + countFinished (m :: rest.take j) < W := hc
        rw [countFinished_cons] at hc'
        omega

/-- One coordinator step preserves the loop invariant, accumulating a fault
that arrives before all `W` workers have finished. -/
theorem coordStep_inv (W : Nat) (st : CoordState) (c : Nat) (Φ : Prop) (m : WorkerMsg)
    (h1 : st.workersFinished = min c W)
    (h2 : (st.resolvedFlag = true) ↔ W ≤ c)
    (h3 : st.resolvedFlag = true → st.settled.isSome = true)
    (h4 : ∀ rs, st.settled = some (BatchOutcome.success rs) → W ≤ c)
    (h5 : (∃ e, st.settled = some (BatchOutcome.failure e)) ↔ Φ) :
    ((coordStep W st m).workersFinished = min (c + finCount m) W) ∧
    (((coordStep W st m).resolvedFlag = true) ↔ W ≤ c + finCount m) ∧
    ((coordStep W st m).resolvedFlag = true → (coordStep W st m).settled.isSome = true) ∧
    (∀ rs, (coordStep W st m).settled = some (BatchOutcome.success rs) →
      W ≤ c + finCount m) ∧
    ((∃ e, (coordStep W st m).settled = some (BatchOutcome.failure e)) ↔
      (Φ ∨ (isFault m = true ∧ c < W))) := by
  have hfail : ∀ (e₀ : String),
      ((∃ e, (settle st (BatchOutcome.failure e₀)).settled = some (BatchOutcome.failure e)) ↔
        (Φ ∨ (True ∧ c < W))) ∧
      (∀ rs, (settle st (BatchOutcome.failure e₀)).settled
          = some (BatchOutcome.success rs) → W ≤ c) := by
    intro e₀
    rcases hs : st.settled with _ | x
    · have hcW : c < W := by
        rcases Nat.lt_or_ge c W with h | h
        · exact h
        · exfalso
          have h' := h3 (h2.mpr h)
          rw [hs] at h'
          simp at h'
      constructor
      · rw [settle_settled, hs]
        constructor
        · intro _
          exact Or.inr ⟨trivial, hcW⟩
        · intro _
          exact ⟨e₀, rfl⟩
      · intro rs hrs
        rw [settle_settled, hs] at hrs
        simp at hrs
    · cases x with
      | failure e₁ =>
        have hΦ : Φ := h5.mp ⟨e₁, hs⟩
        constructor
        · rw [settle_settled, hs]
          constructor
          · intro _
            exact Or.inl hΦ
          · intro _
            exact ⟨e₁, rfl⟩
        · intro rs hrs
          rw [settle_settled, hs] at hrs
          simp at hrs
      | success rs₀ =>
        have hWc : W ≤ c := h4 rs₀ hs
        constructor
        · rw [settle_settled, hs]
          constructor
          · rintro ⟨e, he⟩
            simp at he
          · rintro (hΦ | ⟨_, hcW⟩)
            · obtain ⟨e, he⟩ := h5.mpr hΦ
              rw [hs] at he
              simp at he
            · omega
        · intro rs hrs
          exact hWc
  cases m with
  | ready w =>
    simp only [coordStep, finCount, isFault, Nat.add_zero,
      assignNextJob_workersFinished, assignNextJob_resolvedFlag, assignNextJob_settled]
    refine ⟨h1, h2, h3, h4, ?_⟩
    rw [h5]
    simp
  | jobComplete w r =>
    have hs : (coordStep W st (WorkerMsg.jobComplete w r)).settled = st.settled := by
      cases r <;> simp [coordStep, assignNextJob_settled]
    have hw : (coordStep W st (WorkerMsg.jobComplete w r)).workersFinished
        = st.workersFinished := by
      cases r <;> simp [coordStep, assignNextJob_workersFinished]
    have hr : (coordStep W st (WorkerMsg.jobComplete w r)).resolvedFlag
        = st.resolvedFlag := by
      cases r <;> simp [coordStep, assignNextJob_resolvedFlag]
    rw [hs, hw, hr]
    simp only [finCount, isFault, Nat.add_zero]
    refine ⟨h1, h2, h3, h4, ?_⟩
    rw [h5]
    simp
  | finished w =>
    simp only [finCount, isFault]
    by_cases hrf : st.resolvedFlag = true
    · have hWc : W ≤ c := h2.mp hrf
      have hstep : coordStep W st (WorkerMsg.finished w) = st := by
        simp [coordStep, hrf]
      rw [hstep]
      refine ⟨?_, ?_, h3, fun rs h => le_trans (h4 rs h) (by omega), ?_⟩
      · rw [h1]
        omega
      · constructor
        · intro _
          omega
        · intro _
          exact hrf
      · rw [h5]
        simp
    · have hcW : c < W := by
        rcases Nat.lt_or_ge c W with h | h
        · exact h
        · exact absurd (h2.mpr h) hrf
      have hwf : st.workersFinished = c := by
        rw [h1]
        omega
      by_cases hW1 : W ≤ c + 1
      · have hstep : coordStep W st (WorkerMsg.finished w)
            = settle { st with workersFinished := c + 1, resolvedFlag := true }
                (BatchOutcome.success st.results) := by
          simp [coordStep, hrf, hwf, hW1]
        rw [hstep]
        refine ⟨?_, ?_, ?_, ?_, ?_⟩
        · rw [settle_workersFinished]
          show c + 1 = min (c + 1) W
          omega
        · rw [settle_resolvedFlag]
          exact ⟨fun _ => hW1, fun _ => rfl⟩
        · intro _
          rw [settle_settled]
          rfl
        · intro rs _
          exact hW1
        · rw [settle_settled]
          rcases hs : st.settled with _ | x
        -- original promise still pending: the resolve settles it with success
          · show (∃ e, some (BatchOutcome.success st.results) = some (BatchOutcome.failure e)) ↔ _
            constructor
            · rintro ⟨e, he⟩
              simp at he
            · rintro (hΦ | ⟨hf, _⟩)
              · obtain ⟨e, he⟩ := h5.mpr hΦ
                rw [hs] at he
                simp at he
              · simp at hf
          · show (∃ e, some x = some (BatchOutcome.failure e)) ↔ _
            have hx : (∃ e, some x = some (BatchOutcome.failure e)) ↔ Φ := by
              rw [← h5, hs]
            rw [hx]
            simp
      · have hstep : coordStep W st (WorkerMsg.finished w)
            = { st with workersFinished := c + 1 } := by
          simp [coordStep, hrf, hwf, hW1]
        rw [hstep]
        refine ⟨?_, ?_, ?_, ?_, ?_⟩
        · show c + 1 = min (c + 1) W
          omega
        · show (st.resolvedFlag = true) ↔ W ≤ c + 1
          constructor
          · intro h
            exact absurd h hrf
          · intro h
            exact absurd h hW1
        · intro h
          exact absurd (show st.resolvedFlag = true from h) hrf
        · intro rs h
          exact le_trans (h4 rs h) (by omega)
        · show (∃ e, st.settled = some (BatchOutcome.failure e)) ↔ _
          rw [h5]
          simp
  | errorReport w e =>
    obtain ⟨hiff, hsucc⟩ := hfail e
    simp only [coordStep, finCount, isFault, Nat.add_zero]
    refine ⟨by rw [settle_workersFinished]; exact h1,
      by rw [settle_resolvedFlag]; exact h2, ?_,
      fun rs h => hsucc rs h, ?_⟩
    · intro _
      rw [settle_settled]
      rfl
    · rw [hiff]
  | threadError w e =>
    obtain ⟨hiff, hsucc⟩ := hfail e
    simp only [coordStep, finCount, isFault, Nat.add_zero]
    refine ⟨by rw [settle_workersFinished]; exact h1,
      by rw [settle_resolvedFlag]; exact h2, ?_,
      fun rs h => hsucc rs h, ?_⟩
    · intro _
      rw [settle_settled]
      rfl
    · rw [hiff]
  | workerExit w code =>
    simp only [finCount, Nat.add_zero]
    by_cases hc : code = 0
    · subst hc
      have hstep : coordStep W st (WorkerMsg.workerExit w 0) = st := by
        simp [coordStep]
      rw [hstep]
      refine ⟨h1, h2, h3, h4, ?_⟩
      rw [h5]
      simp [isFault]
    · have hstep : coordStep W st (WorkerMsg.workerExit w code)
          = settle st (BatchOutcome.failure "worker stopped with nonzero exit code") := by
        simp [coordStep, hc]
      rw [hstep]
      obtain ⟨hiff, hsucc⟩ := hfail "worker stopped with nonzero exit code"
      refine ⟨by rw [settle_workersFinished]; exact h1,
        by rw [settle_resolvedFlag]; exact h2, ?_,
        fun rs h => hsucc rs h, ?_⟩
      · intro _
        rw [settle_settled]
        rfl
      · rw [hiff]
        simp [isFault, hc]

/-- The coordinator loop invariant, relative to the number `c` of finished
acknowledgments already processed and the accumulated failure condition. -/
theorem coordLoop (W : Nat) (trace : List WorkerMsg) :
    ∀ (st : CoordState) (c : Nat) (Φ : Prop),
    st.workersFinished = min c W →
    ((st.resolvedFlag = true) ↔ W ≤ c) →
    (st.resolvedFlag = true → st.settled.isSome = true) →
    (∀ rs, st.settled = some (BatchOutcome.success rs) → W ≤ c) →
    ((∃ e, st.settled = some (BatchOutcome.failure e)) ↔ Φ) →
    ((∃ e, (trace.foldl (coordStep W) st).settled = some (BatchOutcome.failure e)) ↔
      (Φ ∨ ∃ i, ∃ h : i < trace.length,
        isFault (trace.get ⟨i, h⟩) = true ∧ c + countFinished (trace.take i) < W)) := by
  induction trace with
  | nil =>
    intro st c Φ _ _ _ _ h5
    simpa using h5
  | cons m rest ih =>
    intro st c Φ h1 h2 h3 h4 h5
    obtain ⟨g1, g2, g3, g4, g5⟩ := coordStep_inv W st c Φ m h1 h2 h3 h4 h5
    have hrec := ih (coordStep W st m) (c + finCount m)
      (Φ ∨ (isFault m = true ∧ c < W)) g1 g2 g3 g4 g5
    rw [List.foldl_cons, hrec]
    exact faultIndex_cons W c m rest Φ

/-- Claim C7: the coordinator's batch settles as a failure exactly when some
worker faults (an error message, an uncaught worker exception surfacing as
the `error` event, or a nonzero exit) before all `W` workers have finished —
partial completion by other workers does not mask the fault.  An unfetchable
artifact (`processJob` with a failed fetch) yields no result, and the
coordinator handles such a `jobComplete` by adding nothing to the collected
results, settling nothing, and assigning the next job (or a shutdown when
the queue is empty). -/
theorem c7_batch_failure_semantics (W : Nat) (jobs : List JobDesc)
    (trace : List WorkerMsg) (hW : 1 ≤ W) :
    ((∃ e, (runCoord W jobs trace).settled = some (BatchOutcome.failure e)) ↔
      (∃ i, ∃ h : i < trace.length,
        isFault (trace.get ⟨i, h⟩) = true ∧ countFinished (trace.take i) < W))
    ∧ (∀ job, processJob none job = none)
    ∧ (∀ st w, (coordStep W st (WorkerMsg.jobComplete w none)).results = st.results
        ∧ (coordStep W st (WorkerMsg.jobComplete w none)).settled = st.settled
        ∧ (∀ j rest, st.queue = j :: rest →
            (coordStep W st (WorkerMsg.jobComplete w none)).queue = rest
              ∧ (coordStep W st (WorkerMsg.jobComplete w none)).assignedJobs
                  = st.assignedJobs ++ [j])
        ∧ (st.queue = [] →
            (coordStep W st (WorkerMsg.jobComplete w none)).shutdownsSent
              = st.shutdownsSent + 1)) := by
  refine ⟨?_, ?_, ?_⟩
  · have h := coordLoop W trace { queue := jobs } 0 False
      (by show (0 : Nat) = min 0 W; omega)
      (by constructor
          · intro h
            simp at h
          · intro h
            omega)
      (by intro h; simp at h)
      (by intro rs h; simp at h)
      (by simp)
    rw [show runCoord W jobs trace = trace.foldl (coordStep W) { queue := jobs } from rfl, h]
    constructor
    · rintro (hf | h)
      · exact absurd hf id
      · simpa using h
    · intro h
      exact Or.inr (by simpa using h)
  · intro job
    by_cases h : job.task_id = "" <;> simp [processJob, h]
  · intro st w
    have hstep : coordStep W st (WorkerMsg.jobComplete w none) = assignNextJob st := rfl
    rw [hstep]
    refine ⟨?_, assignNextJob_settled st, ?_, ?_⟩
    · unfold assignNextJob
      cases st.queue <;> rfl
    · intro j rest hq
      unfold assignNextJob
      rw [hq]
      exact ⟨rfl, rfl⟩
    · intro hq
      unfold assignNextJob
      rw [hq]

/-- Witness for C7 at a concrete one-worker pool and trace containing a
fault. -/
theorem c7_batch_failure_semantics_witness :
    (1 ≤ 1) ∧
    (∃ e, (runCoord 1 [] [WorkerMsg.threadError 0 "boom"]).settled
        = some (BatchOutcome.failure e)) :=
  ⟨le_refl 1,
    ((c7_batch_failure_semantics 1 [] [WorkerMsg.threadError 0 "boom"] (le_refl 1)).1).mpr
      ⟨0, by decide, by decide, by decide⟩⟩

/-! ## Extractor path and status claims (C1, C4, C8) -/

/-- Every timing emitted from a structured (`Test`) marker carries the
colon-stripped identifier as its path and the normalized status. -/
theorem processTestMarker_test_spec (mStart : Int) (ranges : List (Int × Int))
    (crashes : List CrashMarker) (d : MarkerData) (s e : Int) (raw : String)
    (tm : Timing) (hT : d.dtype = "Test") (hraw : jsOrS d.test d.name = some raw)
    (h : processTestMarker mStart ranges crashes (some d) s e = some tm) :
    tm.path = stripManifest raw
      ∧ tm.status = computeStatus (jsOrDefault d.status "UNKNOWN") d.color s e ranges := by
  simp only [processTestMarker, hT, hraw, eq_self_iff_true, if_true] at h
  split at h
  · split at h
    · split at h
      · have htm := Option.some.inj h
        subst htm
        exact ⟨rfl, rfl⟩
      · have htm := Option.some.inj h
        subst htm
        exact ⟨rfl, rfl⟩
    · have htm := Option.some.inj h
      subst htm
      exact ⟨rfl, rfl⟩
  · exact absurd h (by simp)

/-- Counterexample to C1: for the identifier `a:b.js:c.js` the extractor
keeps `split(':')[1] = "b.js"`, not the suffix `"c.js"` after the last
colon. -/
theorem c1_counterexample :
    (extractTestTimings profTwoColons).map Timing.path = ["b.js"]
      ∧ ¬ (extractTestTimings profTwoColons).map Timing.path = ["c.js"] := by
  constructor
  · decide
  · decide

/-- Claim C1 (amended): for every structured marker whose test identifier
contains `:`, the emitted test path is the element at index 1 of the colon
split — the segment after the first `:` — which equals the suffix after the
last `:` only when the identifier holds exactly one colon. -/
theorem c1_colon_split (mStart : Int) (ranges : List (Int × Int))
    (crashes : List CrashMarker) (d : MarkerData) (s e : Int) (raw : String)
    (tm : Timing) (hT : d.dtype = "Test") (hraw : jsOrS d.test d.name = some raw)
    (hc : strContainsChar raw ':' = true)
    (h : processTestMarker mStart ranges crashes (some d) s e = some tm) :
    tm.path = splitIndex raw ':' 1 := by
  have hspec := processTestMarker_test_spec mStart ranges crashes d s e raw tm hT hraw h
  rw [hspec.1]
  unfold stripManifest
  rw [if_pos hc]

/-- Witness for C1 (amended) on a concrete marker. -/
theorem c1_colon_split_witness :
    (({ dtype := "Test", test := some "a:b.js:c.js", status := some "PASS" } : MarkerData).dtype
        = "Test")
    ∧ (∀ tm, processTestMarker 100 [] []
          (some { dtype := "Test", test := some "a:b.js:c.js", status := some "PASS" }) 0 5
          = some tm → tm.path = splitIndex "a:b.js:c.js" ':' 1) :=
  ⟨by decide, fun tm h =>
    c1_colon_split 100 [] [] _ 0 5 "a:b.js:c.js" tm (by decide) (by decide) (by decide) h⟩

/-- Counterexample to C4: a structured `FAIL` marker with green color whose
time range overlaps a parallel-execution range is emitted as
`EXPECTED-FAIL`, not `FAIL-PARALLEL`. -/
theorem c4_counterexample :
    (extractTestTimings profGreenFail).map Timing.status = ["EXPECTED-FAIL"]
      ∧ ¬ (extractTestTimings profGreenFail).map Timing.status = ["FAIL-PARALLEL"] := by
  constructor
  · decide
  · decide

/-- Claim C4 (amended): for a structured marker with status in
`{TIMEOUT, FAIL, PASS}` — except `FAIL` with green color, which is
reclassified `EXPECTED-FAIL` first — the status is suffixed `-PARALLEL`
exactly when some parallel marker exists and the test's range overlaps one
(`testStart < rangeEnd && testEnd > rangeStart`), `-SEQUENTIAL` when
parallel markers exist but none overlaps, and stays plain with zero parallel
markers; statuses outside the three are never suffixed; and every emitted
timing of such a marker carries exactly this computed status. -/
theorem c4_parallel_suffix (status0 : String) (color : Option String)
    (s e : Int) (ranges : List (Int × Int))
    (hng : ¬(status0 = "FAIL" ∧ color = some "green")) :
    ((status0 = "TIMEOUT" ∨ status0 = "FAIL" ∨ status0 = "PASS") →
      (ranges = [] → computeStatus status0 color s e ranges = status0)
      ∧ (ranges ≠ [] → computeStatus status0 color s e ranges
          = status0 ++
            (if isInParallelRange s e ranges then "-PARALLEL" else "-SEQUENTIAL")))
    ∧ (¬(status0 = "TIMEOUT" ∨ status0 = "FAIL" ∨ status0 = "PASS") →
        computeStatus status0 color s e ranges = status0)
    ∧ (∀ (mStart : Int) (crashes : List CrashMarker) (d : MarkerData) (tm : Timing),
        d.dtype = "Test" → d.status = some status0 → status0 ≠ "" → d.color = color →
        processTestMarker mStart ranges crashes (some d) s e = some tm →
        tm.status = computeStatus status0 color s e ranges) := by
  refine ⟨?_, ?_, ?_⟩
  · intro h3
    constructor
    · intro hr
      unfold computeStatus
      rw [if_neg hng, hr]
      simp
    · intro hr
      unfold computeStatus
      rw [if_neg hng, if_pos ⟨h3, hr⟩]
  · intro h3
    unfold computeStatus
    rw [if_neg hng, if_neg (fun hand => h3 hand.1)]
  · intro mStart crashes d tm hT hst hne hcol h
    have hraw : ∃ raw, jsOrS d.test d.name = some raw := by
      rcases hr : jsOrS d.test d.name with _ | raw
      · simp only [processTestMarker, hT, hr, eq_self_iff_true, if_true] at h
        exact Option.noConfusion h
      · exact ⟨raw, rfl⟩
    obtain ⟨raw, hraw⟩ := hraw
    have hspec := processTestMarker_test_spec mStart ranges crashes d s e raw tm hT hraw h
    rw [hspec.2, hst, hcol]
    simp only [jsOrDefault]
    rw [if_neg hne]

/-- Witness for C4 (amended) at a concrete `PASS` marker overlapping a
parallel range. -/
theorem c4_parallel_suffix_witness :
    (¬(("PASS" : String) = "FAIL" ∧ (none : Option String) = some "green"))
    ∧ (([((0 : Int), (10 : Int))] : List (Int × Int)) ≠ [] →
        computeStatus "PASS" none 1 5 [((0 : Int), (10 : Int))]
          = "PASS" ++
            (if isInParallelRange 1 5 [((0 : Int), (10 : Int))] then "-PARALLEL"
             else "-SEQUENTIAL")) :=
  ⟨by decide,
    ((c4_parallel_suffix "PASS" none 1 5 [((0 : Int), (10 : Int))] (by decide)).1
      (Or.inr (Or.inr rfl))).2⟩

/-- Claim C8: a structured marker carrying `status = FAIL` and
`color = green` is always normalized to exactly `EXPECTED-FAIL`, with no
`-PARALLEL`/`-SEQUENTIAL` suffix, whatever parallel ranges exist and
overlap; every emitted timing of such a marker carries exactly
`EXPECTED-FAIL`. -/
theorem c8_expected_fail (mStart : Int) (ranges : List (Int × Int))
    (crashes : List CrashMarker) (d : MarkerData) (s e : Int)
    (hT : d.dtype = "Test") (hst : d.status = some "FAIL")
    (hcol : d.color = some "green") :
    computeStatus (jsOrDefault d.status "UNKNOWN") d.color s e ranges = "EXPECTED-FAIL"
      ∧ ∀ tm, processTestMarker mStart ranges crashes (some d) s e = some tm →
          tm.status = "EXPECTED-FAIL" := by
  have hcs : computeStatus (jsOrDefault d.status "UNKNOWN") d.color s e ranges
      = "EXPECTED-FAIL" := by
    rw [hst, hcol]
    unfold jsOrDefault computeStatus
    simp
  refine ⟨hcs, fun tm h => ?_⟩
  have hraw : ∃ raw, jsOrS d.test d.name = some raw := by
    rcases hr : jsOrS d.test d.name with _ | raw
    · simp only [processTestMarker, hT, hr, eq_self_iff_true, if_true] at h
      exact Option.noConfusion h
    · exact ⟨raw, rfl⟩
  obtain ⟨raw, hraw⟩ := hraw
  have hspec := processTestMarker_test_spec mStart ranges crashes d s e raw tm hT hraw h
  rw [hspec.2, hcs]

/-- Witness for C8 at the concrete green-`FAIL` marker of
`profGreenFail`. -/
theorem c8_expected_fail_witness :
    greenFailMarker.status = some "FAIL"
    ∧ computeStatus (jsOrDefault greenFailMarker.status "UNKNOWN")
        greenFailMarker.color 1 5 [((0 : Int), (10 : Int))]
        = "EXPECTED-FAIL" :=
  ⟨by decide,
    (c8_expected_fail 100 [((0 : Int), (10 : Int))] [] greenFailMarker 1 5 (by decide)
      (by decide) (by decide)).1⟩

/-! ## Resource-usage extraction (C9, C10) -/

theorem jsMax_eq_max (m u : Int) : jsMax m u = max m u := by
  unfold jsMax
  rcases le_or_lt u m with h | h
  · rw [if_neg (not_lt.mpr h), max_eq_left h]
  · rw [if_pos h, max_eq_right h.le]

theorem foldl_jsMax_ge (l : List Int) :
    ∀ m, m ≤ l.foldl jsMax m ∧ ∀ u ∈ l, u ≤ l.foldl jsMax m := by
  induction l with
  | nil =>
    intro m
    exact ⟨le_refl m, by simp⟩
  | cons x xs ih =>
    intro m
    obtain ⟨h1, h2⟩ := ih (jsMax m x)
    have hmx : m ≤ jsMax m x := by
      rw [jsMax_eq_max]
      exact le_max_left _ _
    have hxx : x ≤ jsMax m x := by
      rw [jsMax_eq_max]
      exact le_max_right _ _
    refine ⟨le_trans hmx h1, ?_⟩
    intro u hu
    rcases List.mem_cons.mp hu with rfl | hu
    · exact le_trans hxx h1
    · exact h2 u hu

theorem foldl_jsMax_mem (l : List Int) :
    ∀ m, l.foldl jsMax m = m ∨ l.foldl jsMax m ∈ l := by
  induction l with
  | nil =>
    intro m
    exact Or.inl rfl
  | cons x xs ih =>
    intro m
    rw [List.foldl_cons]
    rcases ih (jsMax m x) with h | h
    · rw [h]
      unfold jsMax
      by_cases hxm : x > m
      · rw [if_pos hxm]
        exact Or.inr (List.mem_cons_self x xs)
      · rw [if_neg hxm]
        exact Or.inl rfl
    · exact Or.inr (List.mem_cons_of_mem x h)

theorem idleSum_cons (th : Rat) (sm : Rat × Int) (rest : List (Rat × Int)) :
    idleSum th (sm :: rest) = (if sm.1 < th then sm.2 else 0) + idleSum th rest := by
  unfold idleSum
  rw [List.filter_cons]
  by_cases h : sm.1 < th <;> simp [h]

theorem bandSum_cons (lo hi : Rat) (sm : Rat × Int) (rest : List (Rat × Int)) :
    bandSum lo hi (sm :: rest)
      = (if lo ≤ sm.1 ∧ sm.1 ≤ hi then sm.2 else 0) + bandSum lo hi rest := by
  unfold bandSum
  rw [List.filter_cons]
  by_cases h : lo ≤ sm.1 ∧ sm.1 ≤ hi <;> simp [h]

theorem bucketSum_cons (k : Nat) (sm : Rat × Int) (rest : List (Rat × Int)) :
    bucketSum k (sm :: rest)
      = (if bucketOf sm.1 = (k : Int) then sm.2 else 0) + bucketSum k rest := by
  unfold bucketSum
  rw [List.filter_cons]
  by_cases h : bucketOf sm.1 = (k : Int) <;> simp [h]

theorem getD_set_add (l : List Int) (i k : Nat) (d : Int) (hi : i < l.length) :
    (l.set i (l.getD i 0 + d)).getD k 0
      = l.getD k 0 + (if i = k then d else 0) := by
  by_cases hik : i = k
  · subst hik
    rw [List.getD_eq_getElem?_getD, List.getElem?_set_self hi, if_pos rfl,
      List.getD_eq_getElem?_getD, List.getElem?_eq_getElem hi]
    rfl
  · rw [List.getD_eq_getElem?_getD, List.getElem?_set_ne hik, if_neg hik,
      ← List.getD_eq_getElem?_getD]
    omega

/-- The resource-usage loop computes, over any marker rows: the running
memory maximum, the idle and single-core duration sums, and the per-bucket
duration sums. -/
theorem resourceFold_spec (idleTh scMin scMax : Rat)
    (rows : List (Option MarkerData × Int × Int)) :
    ∀ acc : ResAcc, acc.cpuBuckets.length = 10 →
    ((rows.foldl (resourceStep idleTh scMin scMax) acc).maxMemory
        = (memSamples rows).foldl jsMax acc.maxMemory)
    ∧ ((rows.foldl (resourceStep idleTh scMin scMax) acc).idleTime
        = acc.idleTime + idleSum idleTh (cpuSamples rows))
    ∧ ((rows.foldl (resourceStep idleTh scMin scMax) acc).singleCoreTime
        = acc.singleCoreTime + bandSum scMin scMax (cpuSamples rows))
    ∧ ((rows.foldl (resourceStep idleTh scMin scMax) acc).cpuBuckets.length = 10)
    ∧ (∀ k, k < 10 →
        (rows.foldl (resourceStep idleTh scMin scMax) acc).cpuBuckets.getD k 0
          = acc.cpuBuckets.getD k 0 + bucketSum k (cpuSamples rows)) := by
  induction rows with
  | nil =>
    intro acc hlen
    refine ⟨rfl, ?_, ?_, hlen, ?_⟩
    · show acc.idleTime = acc.idleTime + idleSum idleTh []
      simp [idleSum]
    · show acc.singleCoreTime = acc.singleCoreTime + bandSum scMin scMax []
      simp [bandSum]
    · intro k _
      show acc.cpuBuckets.getD k 0 = acc.cpuBuckets.getD k 0 + bucketSum k []
      simp [bucketSum]
  | cons row rest ih =>
    intro acc hlen
    rcases row with ⟨od, rs, re⟩
    -- the step result on the head row
    rcases od with _ | d
    · -- null data entry: skipped
      have hstep : resourceStep idleTh scMin scMax acc (none, rs, re) = acc := rfl
      have hhead : cpuSamples ((none, rs, re) :: rest) = cpuSamples rest := by
        simp [cpuSamples, List.filterMap_cons]
      have hheadm : memSamples ((none, rs, re) :: rest) = memSamples rest := by
        simp [memSamples, List.filterMap_cons]
      rw [List.foldl_cons, hstep, hhead, hheadm]
      exact ih acc hlen
    · by_cases hMem : d.dtype = "Mem"
      · -- a memory sample
        have hnotcpu : ¬ d.dtype = "CPU" := by
          rw [hMem]
          decide
        have hhead : cpuSamples ((some d, rs, re) :: rest) = cpuSamples rest := by
          simp [cpuSamples, List.filterMap_cons, hnotcpu]
        rcases hu : d.used with _ | u
        · have hstep : resourceStep idleTh scMin scMax acc (some d, rs, re) = acc := by
            simp [resourceStep, hMem, hu]
          have hheadm : memSamples ((some d, rs, re) :: rest) = memSamples rest := by
            simp [memSamples, List.filterMap_cons, hMem, hu]
          rw [List.foldl_cons, hstep, hhead, hheadm]
          exact ih acc hlen
        · have hstep : resourceStep idleTh scMin scMax acc (some d, rs, re)
              = { acc with maxMemory := jsMax acc.maxMemory u } := by
            simp [resourceStep, hMem, hu]
          have hheadm : memSamples ((some d, rs, re) :: rest) = u :: memSamples rest := by
            simp [memSamples, List.filterMap_cons, hMem, hu]
          rw [List.foldl_cons, hstep, hhead, hheadm]
          obtain ⟨m1, m2, m3, m4, m5⟩ := ih { acc with maxMemory := jsMax acc.maxMemory u }
            (by simpa using hlen)
          exact ⟨m1, m2, m3, m4, m5⟩
      · by_cases hCpu : d.dtype = "CPU"
        · have hheadm : memSamples ((some d, rs, re) :: rest) = memSamples rest := by
            simp [memSamples, List.filterMap_cons, hMem]
          rcases hp : d.cpuPercent with _ | cp
          · -- NaN parse: skipped
            have hstep : resourceStep idleTh scMin scMax acc (some d, rs, re) = acc := by
              simp [resourceStep, hMem, hCpu, hp]
            have hhead : cpuSamples ((some d, rs, re) :: rest) = cpuSamples rest := by
              simp [cpuSamples, List.filterMap_cons, hCpu, hp]
            rw [List.foldl_cons, hstep, hhead, hheadm]
            exact ih acc hlen
          · have hhead : cpuSamples ((some d, rs, re) :: rest)
                = (cp, re - rs) :: cpuSamples rest := by
              simp [cpuSamples, List.filterMap_cons, hCpu, hp]
            -- the stepped accumulator, described field by field
            have hstep : resourceStep idleTh scMin scMax acc (some d, rs, re)
                = { maxMemory := acc.maxMemory,
                    idleTime := acc.idleTime + (if cp < idleTh then re - rs else 0),
                    singleCoreTime :=
                      acc.singleCoreTime + (if scMin ≤ cp ∧ cp ≤ scMax then re - rs else 0),
                    cpuBuckets :=
                      if 0 ≤ bucketOf cp then
                        acc.cpuBuckets.set (bucketOf cp).toNat
                          (acc.cpuBuckets.getD (bucketOf cp).toNat 0 + (re - rs))
                      else acc.cpuBuckets } := by
              simp only [resourceStep, hMem, hCpu, hp, bucketOf]
              by_cases h1 : cp < idleTh <;> by_cases h2 : scMin ≤ cp ∧ cp ≤ scMax <;>
                by_cases h3 : (0 : Int) ≤ min ⌊cp / 10⌋ 9 <;>
                  simp [h1, h2, h3]
            have hlen' :
                (if 0 ≤ bucketOf cp then
                    acc.cpuBuckets.set (bucketOf cp).toNat
                      (acc.cpuBuckets.getD (bucketOf cp).toNat 0 + (re - rs))
                  else acc.cpuBuckets).length = 10 := by
              by_cases h3 : (0 : Int) ≤ bucketOf cp <;> simp [h3, hlen]
            rw [List.foldl_cons, hstep, hhead, hheadm]
            obtain ⟨m1, m2, m3, m4, m5⟩ := ih
              { maxMemory := acc.maxMemory,
                idleTime := acc.idleTime + (if cp < idleTh then re - rs else 0),
                singleCoreTime :=
                  acc.singleCoreTime + (if scMin ≤ cp ∧ cp ≤ scMax then re - rs else 0),
                cpuBuckets :=
                  if 0 ≤ bucketOf cp then
                    acc.cpuBuckets.set (bucketOf cp).toNat
                      (acc.cpuBuckets.getD (bucketOf cp).toNat 0 + (re - rs))
                  else acc.cpuBuckets }
              hlen'
            refine ⟨m1, ?_, ?_, m4, ?_⟩
            · rw [m2, idleSum_cons]
              dsimp only
              omega
            · rw [m3, bandSum_cons]
              dsimp only
              omega
            · intro k hk
              rw [m5 k hk, bucketSum_cons]
              show (if 0 ≤ bucketOf cp then
                    acc.cpuBuckets.set (bucketOf cp).toNat
                      (acc.cpuBuckets.getD (bucketOf cp).toNat 0 + (re - rs))
                  else acc.cpuBuckets).getD k 0 + bucketSum k (cpuSamples rest)
                = acc.cpuBuckets.getD k 0
                  + ((if bucketOf cp = (k : Int) then re - rs else 0)
                      + bucketSum k (cpuSamples rest))
              by_cases h3 : (0 : Int) ≤ bucketOf cp
              · rw [if_pos h3]
                have hle9 : bucketOf cp ≤ 9 := min_le_right _ _
                have hlt : (bucketOf cp).toNat < acc.cpuBuckets.length := by
                  rw [hlen]
                  omega
                rw [getD_set_add acc.cpuBuckets (bucketOf cp).toNat k (re - rs) hlt]
                have hiff : ((bucketOf cp).toNat = k) ↔ (bucketOf cp = (k : Int)) := by
                  omega
                by_cases hke : bucketOf cp = (k : Int)
                · rw [if_pos (hiff.mpr hke), if_pos hke]
                  omega
                · rw [if_neg (fun hh => hke (hiff.mp hh)), if_neg hke]
                  omega
              · rw [if_neg h3]
                have hne : ¬ bucketOf cp = (k : Int) := by
                  omega
                rw [if_neg hne]
                omega
        · -- a marker of some other type: skipped
          have hstep : resourceStep idleTh scMin scMax acc (some d, rs, re) = acc := by
            simp [resourceStep, hMem, hCpu]
          have hhead : cpuSamples ((some d, rs, re) :: rest) = cpuSamples rest := by
            simp [cpuSamples, List.filterMap_cons, hCpu]
          have hheadm : memSamples ((some d, rs, re) :: rest) = memSamples rest := by
            simp [memSamples, List.filterMap_cons, hMem]
          rw [List.foldl_cons, hstep, hhead, hheadm]
          exact ih acc hlen

theorem list_eq_range10_map (l : List Int) (f : Nat → Int) (hlen : l.length = 10)
    (h : ∀ k, k < 10 → l.getD k 0 = f k) : l = (List.range 10).map f := by
  apply List.ext_getElem
  · simp [hlen]
  · intro k h1 h2
    have hk : k < 10 := by
      rw [hlen] at h1
      exact h1
    have hd := h k hk
    rw [List.getD_eq_getElem l 0 h1] at hd
    rw [hd, List.getElem_map, List.getElem_range]

/-- The closed form of `extractResourceUsage` on a well-shaped artifact. -/
theorem extractResourceUsage_eq (meta : Option Meta) (len : Nat) (nm : Option (List Int))
    (dt : List (Option MarkerData)) (st et : List Int) (sa : Option (List String))
    (rest : List Thread) :
    extractResourceUsage
        (some { meta := meta, threads := threadOf len nm (some dt) st et sa :: rest })
      = some
        { machineInfo := machineInfoOf meta,
          maxMemory := (memSamples (markerRows len dt st et)).foldl jsMax 0,
          idleTime :=
            idleSum (oneCorePctOf (machineInfoOf meta).logicalCPUs / 2)
              (cpuSamples (markerRows len dt st et)),
          singleCoreTime :=
            bandSum (oneCorePctOf (machineInfoOf meta).logicalCPUs * 0.75)
              (oneCorePctOf (machineInfoOf meta).logicalCPUs * 1.25)
              (cpuSamples (markerRows len dt st et)),
          cpuBuckets :=
            (List.range 10).map fun k => bucketSum k (cpuSamples (markerRows len dt st et)) } := by
  obtain ⟨m1, m2, m3, m4, m5⟩ :=
    resourceFold_spec (oneCorePctOf (machineInfoOf meta).logicalCPUs / 2)
      (oneCorePctOf (machineInfoOf meta).logicalCPUs * 0.75)
      (oneCorePctOf (machineInfoOf meta).logicalCPUs * 1.25)
      (markerRows len dt st et)
      { maxMemory := 0, idleTime := 0, singleCoreTime := 0,
        cpuBuckets := List.replicate 10 0 }
      (by simp)
  show some _ = some _
  refine congrArg some ?_
  have hred : extractResourceUsage
      (some { meta := meta, threads := threadOf len nm (some dt) st et sa :: rest })
      = some
        { machineInfo := machineInfoOf meta,
          maxMemory :=
            ((markerRows len dt st et).foldl
              (resourceStep (oneCorePctOf (machineInfoOf meta).logicalCPUs / 2)
                (oneCorePctOf (machineInfoOf meta).logicalCPUs * 0.75)
                (oneCorePctOf (machineInfoOf meta).logicalCPUs * 1.25))
              { maxMemory := 0, idleTime := 0, singleCoreTime := 0,
                cpuBuckets := List.replicate 10 0 }).maxMemory,
          idleTime :=
            ((markerRows len dt st et).foldl
              (resourceStep (oneCorePctOf (machineInfoOf meta).logicalCPUs / 2)
                (oneCorePctOf (machineInfoOf meta).logicalCPUs * 0.75)
                (oneCorePctOf (machineInfoOf meta).logicalCPUs * 1.25))
              { maxMemory := 0, idleTime := 0, singleCoreTime := 0,
                cpuBuckets := List.replicate 10 0 }).idleTime,
          singleCoreTime :=
            ((markerRows len dt st et).foldl
              (resourceStep (oneCorePctOf (machineInfoOf meta).logicalCPUs / 2)
                (oneCorePctOf (machineInfoOf meta).logicalCPUs * 0.75)
                (oneCorePctOf (machineInfoOf meta).logicalCPUs * 1.25))
              { maxMemory := 0, idleTime := 0, singleCoreTime := 0,
                cpuBuckets := List.replicate 10 0 }).singleCoreTime,
          cpuBuckets :=
            ((markerRows len dt st et).foldl
              (resourceStep (oneCorePctOf (machineInfoOf meta).logicalCPUs / 2)
                (oneCorePctOf (machineInfoOf meta).logicalCPUs * 0.75)
                (oneCorePctOf (machineInfoOf meta).logicalCPUs * 1.25))
              { maxMemory := 0, idleTime := 0, singleCoreTime := 0,
                cpuBuckets := List.replicate 10 0 }).cpuBuckets } := rfl
  have hbk := list_eq_range10_map _
    (fun k => bucketSum k (cpuSamples (markerRows len dt st et))) m4 (fun k hk => by
      rw [m5 k hk, List.getD_eq_getElem?_getD, List.getElem?_replicate]
      simp [hk])
  have := Option.some.inj hred
  rw [this, m1, m2, m3, hbk]
  dsimp only
  rw [zero_add, zero_add]

/-- Claim C9 (amended): on a well-shaped artifact the extractor reports —
with `onCorePct = 100 / logicalCPUs`, default `12.5` — the idle time as the
total duration of CPU samples strictly below `onCorePct / 2`, the
single-core time as the total duration inside the closed band
`[0.75, 1.25] × onCorePct`, ten buckets holding the total duration of the
samples with bucket index `min(⌊p/10⌋, 9)`, and the peak memory as the
running maximum (from 0) of the memory samples; every CPU sample with a
**nonnegative** parsed percentage falls in exactly one of the ten buckets
(a negative percentage falls in none — see the counterexample). -/
theorem c9_resource_summary (meta : Option Meta) (len : Nat) (nm : Option (List Int))
    (dt : List (Option MarkerData)) (st et : List Int) (sa : Option (List String))
    (rest : List Thread) :
    (extractResourceUsage
        (some { meta := meta, threads := threadOf len nm (some dt) st et sa :: rest })
      = some
        { machineInfo := machineInfoOf meta,
          maxMemory := (memSamples (markerRows len dt st et)).foldl jsMax 0,
          idleTime :=
            idleSum (oneCorePctOf (machineInfoOf meta).logicalCPUs / 2)
              (cpuSamples (markerRows len dt st et)),
          singleCoreTime :=
            bandSum (oneCorePctOf (machineInfoOf meta).logicalCPUs * 0.75)
              (oneCorePctOf (machineInfoOf meta).logicalCPUs * 1.25)
              (cpuSamples (markerRows len dt st et)),
          cpuBuckets :=
            (List.range 10).map fun k =>
              bucketSum k (cpuSamples (markerRows len dt st et)) })
    ∧ (∀ cp : Rat, 0 ≤ cp → ∃! k : Nat, k < 10 ∧ bucketOf cp = (k : Int))
    ∧ (∀ u ∈ memSamples (markerRows len dt st et),
        u ≤ (memSamples (markerRows len dt st et)).foldl jsMax 0)
    ∧ ((memSamples (markerRows len dt st et)).foldl jsMax 0 = 0
        ∨ (memSamples (markerRows len dt st et)).foldl jsMax 0
            ∈ memSamples (markerRows len dt st et)) := by
  refine ⟨extractResourceUsage_eq meta len nm dt st et sa rest, ?_, ?_, ?_⟩
  · intro cp hcp
    have h0 : (0 : Int) ≤ bucketOf cp := by
      refine le_min ?_ (by norm_num)
      rw [Int.floor_nonneg]
      positivity
    have h9 : bucketOf cp ≤ 9 := min_le_right _ _
    refine ⟨(bucketOf cp).toNat, ⟨by omega, by omega⟩, ?_⟩
    intro k hk
    omega
  · exact (foldl_jsMax_ge (memSamples (markerRows len dt st et)) 0).2
  · exact foldl_jsMax_mem (memSamples (markerRows len dt st et)) 0

/-- Counterexample to C9: a CPU sample whose percent parses negative (such
as the string `"-10%"`) is processed — its 7 ms count as idle — but its
duration is added to none of the ten buckets, because the bucket index
`min(⌊-10/10⌋, 9) = -1` lands on a negative array key. -/
theorem c9_counterexample :
    ∃ ru, extractResourceUsage (some profNegCpu) = some ru
      ∧ ru.idleTime = 7
      ∧ ru.cpuBuckets = List.replicate 10 0 := by
  have heq := extractResourceUsage_eq none 1 (some [0])
    [some { dtype := "CPU", cpuPercent := some (-10) }] [0] [7] none []
  have hrows : markerRows 1 [some { dtype := "CPU", cpuPercent := some (-10) }] [0] [7]
      = [(some { dtype := "CPU", cpuPercent := some (-10) }, 0, 7)] := rfl
  have hsam : cpuSamples
      (markerRows 1 [some { dtype := "CPU", cpuPercent := some (-10) }] [0] [7])
      = [((-10 : Rat), (7 : Int))] := by
    rw [hrows]
    simp [cpuSamples, List.filterMap_cons]
  have hb : bucketOf (-10 : Rat) = -1 := by
    unfold bucketOf
    rw [show ((-10 : Rat) / 10) = ((-1 : Int) : Rat) by norm_num, Int.floor_intCast]
    decide
  refine ⟨_, heq, ?_, ?_⟩
  · show idleSum (oneCorePctOf (machineInfoOf none).logicalCPUs / 2)
        (cpuSamples (markerRows 1 [some { dtype := "CPU", cpuPercent := some (-10) }] [0] [7]))
      = 7
    rw [hsam]
    have hlt : ((-10 : Rat) < oneCorePctOf (machineInfoOf none).logicalCPUs / 2) := by
      show ((-10 : Rat) < oneCorePctOf none / 2)
      unfold oneCorePctOf
      norm_num
    rw [idleSum_cons]
    simp [idleSum, hlt]
  · show (List.range 10).map (fun k => bucketSum k (cpuSamples
        (markerRows 1 [some { dtype := "CPU", cpuPercent := some (-10) }] [0] [7])))
      = List.replicate 10 0
    rw [hsam]
    have hz : ∀ k : Nat, bucketSum k [((-10 : Rat), (7 : Int))] = 0 := by
      intro k
      rw [bucketSum_cons]
      have hne : ¬ bucketOf (-10 : Rat) = (k : Int) := by
        rw [hb]
        omega
      rw [if_neg hne]
      simp [bucketSum]
    rw [show (fun k => bucketSum k [((-10 : Rat), (7 : Int))]) = fun _ => (0 : Int) by
      funext k
      exact hz k]
    decide

/-- Counterexample to C10: with marker data present but metadata carrying a
physical CPU count and no logical CPU count, the returned `machineInfo` is
not all-null — `physicalCPUs` survives. -/
theorem c10_counterexample :
    (extractResourceUsage (some profNoLogical)).map (fun ru => ru.machineInfo.physicalCPUs)
        = some (some 4)
      ∧ ¬ (extractResourceUsage (some profNoLogical)).map
            (fun ru => ru.machineInfo.physicalCPUs) = some none := by
  constructor
  · decide
  · decide

/-- Claim C10 (amended): resource extraction returns no summary exactly when
the thread or its marker data arrays are missing (a `null` profile also
yields none); when the metadata merely lacks a logical CPU count (`|| null`
also nulls a zero count), a summary is still produced: its
`machineInfo.logicalCPUs` is null — the other machineInfo fields are null
only when their own metadata entries are missing — and the idle and
single-core thresholds are computed from the default one-core percentage
`12.5` of an assumed 8-core machine. -/
theorem c10_missing_metadata (meta : Option Meta) (len : Nat) (nm : Option (List Int))
    (dt : List (Option MarkerData)) (st et : List Int) (sa : Option (List String))
    (rest : List Thread)
    (hL : jsOrNullNat (meta.bind fun m => m.logicalCPUs) = none) :
    (extractResourceUsage none = none)
    ∧ (∀ p : Profile, extractResourceUsage (some p) = none ↔
        (p.threads.head? = none
          ∨ ∃ th, p.threads.head? = some th ∧
              (th.markers = none ∨ ∃ mo, th.markers = some mo ∧ mo.data = none)))
    ∧ extractResourceUsage
        (some { meta := meta, threads := threadOf len nm (some dt) st et sa :: rest })
      = some
        { machineInfo :=
            { logicalCPUs := none,
              physicalCPUs := jsOrNullNat (meta.bind fun m => m.physicalCPUs),
              mainMemory :=
                match jsOrNullInt (meta.bind fun m => m.mainMemory) with
                | some m => some (toFixed1 ((m : Rat) / (1024 * 1024 * 1024)))
                | none => none },
          maxMemory := (memSamples (markerRows len dt st et)).foldl jsMax 0,
          idleTime := idleSum (12.5 / 2) (cpuSamples (markerRows len dt st et)),
          singleCoreTime :=
            bandSum (12.5 * 0.75) (12.5 * 1.25) (cpuSamples (markerRows len dt st et)),
          cpuBuckets :=
            (List.range 10).map fun k =>
              bucketSum k (cpuSamples (markerRows len dt st et)) } := by
  refine ⟨rfl, ?_, ?_⟩
  · intro p
    rcases hh : p.threads.head? with _ | th
    · simp [extractResourceUsage, hh]
    · rcases hm : th.markers with _ | mo
      · simp [extractResourceUsage, hh, hm]
      · rcases hd : mo.data with _ | dt'
        · simp [extractResourceUsage, hh, hm, hd]
        · constructor
          · intro habs
            simp [extractResourceUsage, hh, hm, hd] at habs
          · rintro (h | ⟨th', hth', h⟩)
            · exact Option.noConfusion h
            · obtain rfl : th = th' := Option.some.inj hth'
              rcases h with h | ⟨mo', hmo', h⟩
              · rw [hm] at h
                exact Option.noConfusion h
              · rw [hm] at hmo'
                obtain rfl : mo = mo' := Option.some.inj hmo'
                rw [hd] at h
                exact Option.noConfusion h
  · have hml : (machineInfoOf meta).logicalCPUs = none := by
      unfold machineInfoOf
      exact hL
    have hpct : oneCorePctOf (machineInfoOf meta).logicalCPUs = 12.5 := by
      rw [hml]
      rfl
    rw [extractResourceUsage_eq meta len nm dt st et sa rest, hpct]
    refine congrArg some ?_
    refine congrArg (fun mi => ResourceUsage.mk mi _ _ _ _) ?_
    unfold machineInfoOf
    rw [hL]

/-- Witness for C10 at metadata carrying only a physical CPU count. -/
theorem c10_missing_metadata_witness :
    jsOrNullNat ((some { physicalCPUs := some 4 } : Option Meta).bind fun m => m.logicalCPUs)
        = none
    ∧ extractResourceUsage none = none :=
  ⟨by decide,
    (c10_missing_metadata (some { physicalCPUs := some 4 }) 0 none [] [] [] none []
      (by decide)).1⟩

/-! ## Columnar encoder invariants (C2, C5, C6) -/

theorem getD_append_lt {α : Type} (l e : List α) (i : Nat) (d : α) (h : i < l.length) :
    (l ++ e).getD i d = l.getD i d := by
  rw [List.getD_eq_getElem?_getD, List.getElem?_append, if_pos h,
    ← List.getD_eq_getElem?_getD]

theorem getD_ge_length {α : Type} (l : List α) (i : Nat) (d : α) (h : l.length ≤ i) :
    l.getD i d = d := by
  rw [List.getD_eq_getElem?_getD, List.getElem?_eq_none h]
  rfl

theorem indexOf_append_self {l : List String} {x : String} (h : x ∉ l) :
    (l ++ [x]).indexOf x = l.length := by
  induction l with
  | nil => simp [List.indexOf_cons]
  | cons y ys ih =>
    have hyx : (y == x) = false := by
      simp only [beq_eq_false_iff_ne, ne_eq]
      intro he
      exact h (he ▸ List.mem_cons_self y ys)
    rw [List.cons_append, List.indexOf_cons, hyx, cond_false]
    show ((ys ++ [x]).indexOf x + 1 : Nat) = ys.length + 1
    rw [ih (fun hm => h (List.mem_cons_of_mem y hm))]

theorem getD_indexOf {l : List String} {x : String} (h : x ∈ l) :
    l.getD (l.indexOf x) "" = x := by
  induction l with
  | nil => exact absurd h (List.not_mem_nil x)
  | cons y ys ih =>
    by_cases hyx : (y == x) = true
    · rw [List.indexOf_cons, hyx, cond_true]
      show y = x
      exact beq_iff_eq.mp hyx
    · have hyx2 : (y == x) = false := by simpa using hyx
      rw [List.indexOf_cons, hyx2, cond_false]
      show ys.getD (ys.indexOf x) "" = x
      refine ih ?_
      rcases List.mem_cons.mp h with rfl | hm
      · exact absurd (beq_iff_eq.mpr rfl) hyx
      · exact hm

theorem findStringIndex_mem {tbl : List String} {s : String} (h : s ∈ tbl) :
    findStringIndex tbl s = (tbl.indexOf s, tbl) := by
  unfold findStringIndex
  rw [if_pos h]

theorem findStringIndex_not_mem {tbl : List String} {s : String} (h : s ∉ tbl) :
    findStringIndex tbl s = (tbl.length, tbl ++ [s]) := by
  unfold findStringIndex
  rw [if_neg h]

theorem findStringIndex_ext (tbl : List String) (s : String) :
    ∃ e, (findStringIndex tbl s).2 = tbl ++ e := by
  by_cases h : s ∈ tbl
  · exact ⟨[], by rw [findStringIndex_mem h]; simp⟩
  · exact ⟨[s], by rw [findStringIndex_not_mem h]⟩

theorem findStringIndex_self_mem (tbl : List String) (s : String) :
    s ∈ (findStringIndex tbl s).2 := by
  by_cases h : s ∈ tbl
  · rw [findStringIndex_mem h]
    exact h
  · rw [findStringIndex_not_mem h]
    simp

theorem findStringIndex_nodup {tbl : List String} (s : String) (h : tbl.Nodup) :
    ((findStringIndex tbl s).2).Nodup := by
  by_cases hm : s ∈ tbl
  · rw [findStringIndex_mem hm]
    exact h
  · rw [findStringIndex_not_mem hm]
    rw [List.nodup_append]
    exact ⟨h, List.nodup_singleton s, by simpa using hm⟩

theorem findStringIndex_lt (tbl : List String) (s : String) :
    (findStringIndex tbl s).1 < (findStringIndex tbl s).2.length := by
  by_cases hm : s ∈ tbl
  · rw [findStringIndex_mem hm]
    exact List.indexOf_lt_length.mpr hm
  · rw [findStringIndex_not_mem hm]
    simp

theorem findStringIndex_idx (tbl : List String) (s : String) :
    (findStringIndex tbl s).1 = (findStringIndex tbl s).2.indexOf s := by
  by_cases hm : s ∈ tbl
  · rw [findStringIndex_mem hm]
  · rw [findStringIndex_not_mem hm]
    show tbl.length = (tbl ++ [s]).indexOf s
    rw [indexOf_append_self hm]

theorem findStringIndex_getD (tbl : List String) (s : String) :
    (findStringIndex tbl s).2.getD (findStringIndex tbl s).1 "" = s := by
  rw [findStringIndex_idx]
  exact getD_indexOf (findStringIndex_self_mem tbl s)

theorem insertString_mem (tbl : List String) {s : String} (h : s ∈ tbl) :
    insertString tbl s = tbl := by
  unfold insertString
  rw [findStringIndex_mem h]

theorem insertString_not_mem (tbl : List String) {s : String} (h : s ∉ tbl) :
    insertString tbl s = tbl ++ [s] := by
  unfold insertString
  rw [findStringIndex_not_mem h]

theorem firstSeen_append_one (xs : List String) (x : String) :
    firstSeen (xs ++ [x]) = insertString (firstSeen xs) x := by
  unfold firstSeen internSeq
  rw [List.foldl_append]
  rfl

theorem mem_append_stable {α : Type} {l e : List α} {x : α} (h : x ∈ l) : x ∈ l ++ e :=
  List.mem_append_left e h

theorem length_setAt {α : Type} (row : List (Option α)) (i : Nat) (v : α) :
    (setAt row i v).length = max row.length (i + 1) := by
  unfold setAt
  rw [List.length_set, List.length_append, List.length_replicate]
  omega

theorem getD_setAt_self {α : Type} (row : List (Option α)) (i : Nat) (v : α) :
    (setAt row i v).getD i none = some v := by
  unfold setAt
  rw [List.getD_eq_getElem?_getD, List.getElem?_set_self]
  · rfl
  · rw [List.length_append, List.length_replicate]
    omega

theorem getD_setAt_ne {α : Type} (row : List (Option α)) (i k : Nat) (v : α)
    (h : k ≠ i) : (setAt row i v).getD k none = row.getD k none := by
  unfold setAt
  rw [List.getD_eq_getElem?_getD, List.getElem?_set_ne (fun he => h he.symm)]
  by_cases hk : k < row.length
  · rw [List.getElem?_append, if_pos hk, ← List.getD_eq_getElem?_getD]
  · rw [List.getElem?_append, if_neg hk, List.getElem?_replicate]
    rw [getD_ge_length row k none (by omega)]
    by_cases hrep : k - row.length < i + 1 - row.length
    · rw [if_pos hrep]
      rfl
    · rw [if_neg hrep]
      rfl

theorem getSlot_append_empty_row (st : DataState) (t s : Nat) :
    getSlot { st with testRuns := st.testRuns ++ [[]] } t s = getSlot st t s := by
  unfold getSlot
  show ((st.testRuns ++ [[]]).getD t []).getD s none = (st.testRuns.getD t []).getD s none
  by_cases ht : t < st.testRuns.length
  · rw [getD_append_lt _ _ _ _ ht]
  · rw [getD_ge_length st.testRuns t [] (by omega)]
    have hL : (st.testRuns ++ [[]]).getD t [] = [] := by
      by_cases hte : t = st.testRuns.length
      · subst hte
        rw [List.getD_eq_getElem?_getD, List.getElem?_append, if_neg (by omega)]
        simp
      · refine getD_ge_length _ _ _ ?_
        rw [List.length_append]
        simp
        omega
    rw [hL]

theorem statusOrUnknown_eq_skip (x : String) : statusOrUnknown x = "SKIP" ↔ x = "SKIP" := by
  unfold statusOrUnknown
  by_cases h : x = ""
  · rw [if_pos h]
    subst h
    constructor
    · intro hc
      exact absurd hc (by decide)
    · intro hc
      exact absurd hc (by decide)
  · rw [if_neg h]

theorem statusOrUnknown_eq_crash (x : String) : statusOrUnknown x = "CRASH" ↔ x = "CRASH" := by
  unfold statusOrUnknown
  by_cases h : x = ""
  · rw [if_pos h]
    subst h
    constructor
    · intro hc
      exact absurd hc (by decide)
    · intro hc
      exact absurd hc (by decide)
  · rw [if_neg h]

theorem getD_mem {α : Type} {l : List α} {i : Nat} {d : α} (h : i < l.length) :
    l.getD i d ∈ l := by
  rw [List.getD_eq_getElem l d h]
  exact List.getElem_mem h

theorem insertString_ext (tbl : List String) (s : String) :
    ∃ e, insertString tbl s = tbl ++ e :=
  findStringIndex_ext tbl s

theorem insertString_length_ge (tbl : List String) (s : String) :
    tbl.length ≤ (insertString tbl s).length := by
  obtain ⟨e, he⟩ := insertString_ext tbl s
  rw [he, List.length_append]
  omega

theorem indexOf_ext_stable {tbl e : List String} {x : String} (h : x ∈ tbl) :
    (tbl ++ e).indexOf x = tbl.indexOf x :=
  List.indexOf_append_of_mem h

theorem internTestStep_stale {st : DataState} {path : String} (h : path ∈ st.testIdMap) :
    internTestStep st path = st := by
  unfold internTestStep
  rw [if_pos h]

theorem internTestStep_fresh {st : DataState} {path : String} (h : path ∉ st.testIdMap) :
    internTestStep st path
      = { st with
          tables := { st.tables with
            testPaths := insertString st.tables.testPaths (dirPart path),
            testNames := insertString st.tables.testNames (namePart path) },
          testPathIds :=
            st.testPathIds ++ [(findStringIndex st.tables.testPaths (dirPart path)).1],
          testNameIds :=
            st.testNameIds ++ [(findStringIndex st.tables.testNames (namePart path)).1],
          testIdMap := st.testIdMap ++ [path] } := by
  unfold internTestStep
  rw [if_neg h]
  rfl

theorem internTestStep_map (st : DataState) (path : String) :
    (internTestStep st path).testIdMap = insertString st.testIdMap path := by
  by_cases h : path ∈ st.testIdMap
  · rw [internTestStep_stale h, insertString_mem _ h]
  · rw [internTestStep_fresh h, insertString_not_mem _ h]

theorem getD_set_self {α : Type} (l : List α) (i : Nat) (v d : α) (h : i < l.length) :
    (l.set i v).getD i d = v := by
  rw [List.getD_eq_getElem?_getD, List.getElem?_set_self h]
  rfl

theorem getD_set_ne {α : Type} (l : List α) (i k : Nat) (v d : α) (h : k ≠ i) :
    (l.set i v).getD k d = l.getD k d := by
  rw [List.getD_eq_getElem?_getD, List.getElem?_set_ne (fun he => h he.symm),
    ← List.getD_eq_getElem?_getD]

/-- The targeted `(testId, statusId)` slot of `appendRun` holds the updated
group. -/
theorem appendRun_getSlot_self (st : DataState) (testId statusId taskIdId : Nat)
    (dur ts : Int) (status : String) (messageId crashSignatureId : Option Nat)
    (minidump : Option String) (hT : testId < st.testRuns.length) :
    getSlot (appendRun st testId statusId taskIdId dur ts status messageId
        crashSignatureId minidump) testId statusId
      = some (updatedGroup (st.testRuns.getD testId []) statusId taskIdId dur ts status
          messageId crashSignatureId minidump) := by
  unfold appendRun getSlot
  dsimp only
  rw [getD_set_self st.testRuns testId _ _ hT, getD_setAt_self]

/-- Every other slot of `appendRun` is untouched. -/
theorem appendRun_getSlot_other (st : DataState) (testId statusId taskIdId : Nat)
    (dur ts : Int) (status : String) (messageId crashSignatureId : Option Nat)
    (minidump : Option String) (t s : Nat) (h : ¬(t = testId ∧ s = statusId)) :
    getSlot (appendRun st testId statusId taskIdId dur ts status messageId
        crashSignatureId minidump) t s = getSlot st t s := by
  unfold appendRun getSlot
  dsimp only
  by_cases ht : t = testId
  · subst ht
    have hs : ¬ s = statusId := fun hs => h ⟨rfl, hs⟩
    by_cases hT : t < st.testRuns.length
    · rw [getD_set_self st.testRuns t _ _ hT, getD_setAt_ne _ _ _ _ hs]
    · rw [List.set_eq_of_length_le (by omega)]
  · rw [getD_set_ne st.testRuns testId t _ _ ht]

theorem appendRun_testRuns_length (st : DataState) (testId statusId taskIdId : Nat)
    (dur ts : Int) (status : String) (messageId crashSignatureId : Option Nat)
    (minidump : Option String) :
    (appendRun st testId statusId taskIdId dur ts status messageId
        crashSignatureId minidump).testRuns.length = st.testRuns.length := by
  unfold appendRun
  exact List.length_set st.testRuns testId _

theorem internTestStep_statuses (st : DataState) (path : String) :
    (internTestStep st path).tables.statuses = st.tables.statuses := by
  by_cases h : path ∈ st.testIdMap
  · rw [internTestStep_stale h]
  · rw [internTestStep_fresh h]

theorem internTestStep_jobNames (st : DataState) (path : String) :
    (internTestStep st path).tables.jobNames = st.tables.jobNames := by
  by_cases h : path ∈ st.testIdMap
  · rw [internTestStep_stale h]
  · rw [internTestStep_fresh h]

theorem internTestStep_repositories (st : DataState) (path : String) :
    (internTestStep st path).tables.repositories = st.tables.repositories := by
  by_cases h : path ∈ st.testIdMap
  · rw [internTestStep_stale h]
  · rw [internTestStep_fresh h]

theorem internTestStep_taskIds (st : DataState) (path : String) :
    (internTestStep st path).tables.taskIds = st.tables.taskIds := by
  by_cases h : path ∈ st.testIdMap
  · rw [internTestStep_stale h]
  · rw [internTestStep_fresh h]

theorem internTestStep_messages (st : DataState) (path : String) :
    (internTestStep st path).tables.messages = st.tables.messages := by
  by_cases h : path ∈ st.testIdMap
  · rw [internTestStep_stale h]
  · rw [internTestStep_fresh h]

theorem internTestStep_crashSignatures (st : DataState) (path : String) :
    (internTestStep st path).tables.crashSignatures = st.tables.crashSignatures := by
  by_cases h : path ∈ st.testIdMap
  · rw [internTestStep_stale h]
  · rw [internTestStep_fresh h]

theorem internTestStep_testRuns (st : DataState) (path : String) :
    (internTestStep st path).testRuns = st.testRuns := by
  by_cases h : path ∈ st.testIdMap
  · rw [internTestStep_stale h]
  · rw [internTestStep_fresh h]

theorem internTestStep_taskRepositoryIds (st : DataState) (path : String) :
    (internTestStep st path).taskRepositoryIds = st.taskRepositoryIds := by
  by_cases h : path ∈ st.testIdMap
  · rw [internTestStep_stale h]
  · rw [internTestStep_fresh h]

theorem internTestStep_taskJobNameIds (st : DataState) (path : String) :
    (internTestStep st path).taskJobNameIds = st.taskJobNameIds := by
  by_cases h : path ∈ st.testIdMap
  · rw [internTestStep_stale h]
  · rw [internTestStep_fresh h]

theorem insertString_self_mem (tbl : List String) (s : String) :
    s ∈ insertString tbl s :=
  findStringIndex_self_mem tbl s

/-! ### Encounter sequences across one appended timing -/

theorem jobNameEncounters_append (processed : List JobResult) (r : JobResult) :
    jobNameEncounters (processed ++ [r]) = jobNameEncounters processed ++ [r.jobName] := by
  unfold jobNameEncounters
  simp

theorem repositoryEncounters_append (processed : List JobResult) (r : JobResult) :
    repositoryEncounters (processed ++ [r])
      = repositoryEncounters processed ++ [r.repository] := by
  unfold repositoryEncounters
  simp

theorem statusEncounters_append (processed : List JobResult) (r : JobResult) :
    statusEncounters (processed ++ [r])
      = statusEncounters processed ++ r.timings.map fun t => statusOrUnknown t.status := by
  unfold statusEncounters
  simp

theorem taskIdEncounters_append (processed : List JobResult) (r : JobResult) :
    taskIdEncounters (processed ++ [r])
      = taskIdEncounters processed ++ r.timings.map fun _ => taskIdStringOf r := by
  unfold taskIdEncounters
  simp

theorem messageEncounters_append (processed : List JobResult) (r : JobResult) :
    messageEncounters (processed ++ [r])
      = messageEncounters processed
        ++ r.timings.filterMap fun t =>
            if t.status = "SKIP" then jsOrNull t.message else none := by
  unfold messageEncounters
  simp

theorem crashSigEncounters_append (processed : List JobResult) (r : JobResult) :
    crashSigEncounters (processed ++ [r])
      = crashSigEncounters processed
        ++ r.timings.filterMap fun t =>
            if t.status = "CRASH" then jsOrNull t.crashSignature else none := by
  unfold crashSigEncounters
  simp

theorem allPaths_append (processed : List JobResult) (r : JobResult) :
    allPaths (processed ++ [r]) = allPaths processed ++ r.timings.map Timing.path := by
  unfold allPaths
  simp


theorem getD_append_default {α : Type} (l : List α) (d : α) (k : Nat) (h : l.length ≤ k) :
    (l ++ [d]).getD k d = l.getD k d := by
  rw [getD_ge_length l k d h]
  rcases Nat.eq_or_lt_of_le h with he | hl
  · subst he
    rw [List.getD_eq_getElem _ _ (by simp)]
    simp
  · exact getD_ge_length _ _ _ (by rw [List.length_append]; simp; omega)

/-- Closed form of one `timingStep` in terms of the pre-step state. -/
theorem timingStep_eq (jId rId : Nat) (task : String) (st : DataState) (tm : Timing) :
    timingStep jId rId task st tm =
      { tables :=
          { jobNames := st.tables.jobNames,
            testPaths := (internTestStep st tm.path).tables.testPaths,
            testNames := (internTestStep st tm.path).tables.testNames,
            repositories := st.tables.repositories,
            statuses := insertString st.tables.statuses (statusOrUnknown tm.status),
            taskIds := insertString st.tables.taskIds task,
            messages := stepMessages st tm,
            crashSignatures := stepCrashSigs st tm },
        taskRepositoryIds :=
          if stepTaskIdId st task < st.taskRepositoryIds.length then st.taskRepositoryIds
          else st.taskRepositoryIds ++ [rId],
        taskJobNameIds :=
          if stepTaskIdId st task < st.taskRepositoryIds.length then st.taskJobNameIds
          else st.taskJobNameIds ++ [jId],
        testPathIds := (internTestStep st tm.path).testPathIds,
        testNameIds := (internTestStep st tm.path).testNameIds,
        testIdMap := insertString st.testIdMap tm.path,
        testRuns :=
          (if stepTestId st tm < st.testRuns.length then st.testRuns
           else st.testRuns ++ [[]]).set (stepTestId st tm)
            (setAt (st.testRuns.getD (stepTestId st tm) []) (stepStatusId st tm)
              (updatedGroup (st.testRuns.getD (stepTestId st tm) [])
                (stepStatusId st tm) (stepTaskIdId st task) (jsRound tm.duration)
                tm.timestamp tm.status (stepMessageId st tm) (stepCrashSigId st tm)
                (jsOrNull tm.minidump))) } := by
  unfold timingStep appendRun stepTestId stepStatusId stepTaskIdId stepMessageId
    stepCrashSigId stepMessages stepCrashSigs
  dsimp only
  rw [internTestStep_statuses, internTestStep_taskIds, internTestStep_messages,
    internTestStep_crashSignatures, internTestStep_jobNames, internTestStep_repositories,
    internTestStep_taskRepositoryIds, internTestStep_taskJobNameIds,
    internTestStep_testRuns, internTestStep_map]
  by_cases htask : (findStringIndex st.tables.taskIds task).1 < st.taskRepositoryIds.length
  · simp only [if_pos htask]
    by_cases htest :
        (insertString st.testIdMap tm.path).indexOf tm.path < st.testRuns.length
    · simp only [if_pos htest]
      rfl
    · simp only [if_neg htest]
      rw [getD_append_default _ _ _ (Nat.le_of_not_lt htest)]
      rfl
  · simp only [if_neg htask]
    by_cases htest :
        (insertString st.testIdMap tm.path).indexOf tm.path < st.testRuns.length
    · simp only [if_pos htest]
      rfl
    · simp only [if_neg htest]
      rw [getD_append_default _ _ _ (Nat.le_of_not_lt htest)]
      rfl

/-! ## The encoder loop invariant (C2, C5, C6) -/

theorem getD_append_singleton_ne {α : Type} (l : List α) (x : α) (k : Nat) (d : α)
    (h : k ≠ l.length) : (l ++ [x]).getD k d = l.getD k d := by
  rcases Nat.lt_or_ge k l.length with hl | hg
  · exact getD_append_lt _ _ _ _ hl
  · rw [getD_ge_length l k d hg,
      getD_ge_length _ _ _ (by rw [List.length_append]; simp; omega)]

theorem mem_set {α : Type} {l : List α} {i : Nat} {v x : α} (h : x ∈ l.set i v) :
    x = v ∨ x ∈ l := by
  induction l generalizing i with
  | nil => simp at h
  | cons a as ih =>
    cases i with
    | zero =>
      rw [List.set_cons_zero] at h
      rcases List.mem_cons.mp h with h1 | h1
      · exact Or.inl h1
      · exact Or.inr (List.mem_cons_of_mem _ h1)
    | succ n =>
      rw [List.set_cons_succ] at h
      rcases List.mem_cons.mp h with h1 | h1
      · exact Or.inr (h1 ▸ List.mem_cons_self _ _)
      · rcases ih h1 with h2 | h2
        · exact Or.inl h2
        · exact Or.inr (List.mem_cons_of_mem _ h2)

theorem insertString_nodup {tbl : List String} (s : String) (h : tbl.Nodup) :
    (insertString tbl s).Nodup :=
  findStringIndex_nodup s h

theorem mem_insertString {tbl : List String} {x : String} (s : String) (h : x ∈ tbl) :
    x ∈ insertString tbl s := by
  obtain ⟨e, he⟩ := insertString_ext tbl s
  rw [he]
  exact mem_append_stable h

theorem indexOf_insertString {tbl : List String} {x : String} (s : String) (h : x ∈ tbl) :
    (insertString tbl s).indexOf x = tbl.indexOf x := by
  obtain ⟨e, he⟩ := insertString_ext tbl s
  rw [he]
  exact indexOf_ext_stable h

theorem stepTestId_eq (st : DataState) (tm : Timing) :
    stepTestId st tm = (insertString st.testIdMap tm.path).indexOf tm.path := by
  unfold stepTestId
  rw [internTestStep_map]

theorem stepTestId_stale {st : DataState} {tm : Timing} (h : tm.path ∈ st.testIdMap) :
    stepTestId st tm = st.testIdMap.indexOf tm.path := by
  rw [stepTestId_eq, insertString_mem _ h]

theorem stepTestId_fresh {st : DataState} {tm : Timing} (h : tm.path ∉ st.testIdMap) :
    stepTestId st tm = st.testIdMap.length := by
  rw [stepTestId_eq, insertString_not_mem _ h, indexOf_append_self h]

theorem stepStatusId_lt (st : DataState) (tm : Timing) :
    stepStatusId st tm
      < (insertString st.tables.statuses (statusOrUnknown tm.status)).length :=
  findStringIndex_lt _ _

theorem stepStatusId_getD (st : DataState) (tm : Timing) :
    (insertString st.tables.statuses (statusOrUnknown tm.status)).getD
      (stepStatusId st tm) "" = statusOrUnknown tm.status :=
  findStringIndex_getD _ _

theorem stepStatusId_indexOf (st : DataState) (tm : Timing) :
    (insertString st.tables.statuses (statusOrUnknown tm.status)).indexOf
      (statusOrUnknown tm.status) = stepStatusId st tm :=
  (findStringIndex_idx _ _).symm

theorem stepTaskIdId_lt (st : DataState) (task : String) :
    stepTaskIdId st task < (insertString st.tables.taskIds task).length :=
  findStringIndex_lt _ _

theorem stepMessages_ext (st : DataState) (tm : Timing) :
    ∃ e, stepMessages st tm = st.tables.messages ++ e := by
  unfold stepMessages
  by_cases hs : tm.status = "SKIP"
  · rw [if_pos hs]
    rcases hm : jsOrNull tm.message with _ | m
    · simp only [hm]
      exact ⟨[], by simp⟩
    · simp only [hm]
      exact insertString_ext _ _
  · rw [if_neg hs]
    exact ⟨[], by simp⟩

theorem stepCrashSigs_ext (st : DataState) (tm : Timing) :
    ∃ e, stepCrashSigs st tm = st.tables.crashSignatures ++ e := by
  unfold stepCrashSigs
  by_cases hs : tm.status = "CRASH"
  · rw [if_pos hs]
    rcases hm : jsOrNull tm.crashSignature with _ | c
    · simp only [hm]
      exact ⟨[], by simp⟩
    · simp only [hm]
      exact insertString_ext _ _
  · rw [if_neg hs]
    exact ⟨[], by simp⟩

theorem stepMessages_nodup (st : DataState) (tm : Timing)
    (h : st.tables.messages.Nodup) : (stepMessages st tm).Nodup := by
  unfold stepMessages
  by_cases hs : tm.status = "SKIP"
  · rw [if_pos hs]
    rcases hm : jsOrNull tm.message with _ | m
    · simp only [hm]
      exact h
    · simp only [hm]
      exact insertString_nodup _ h
  · rw [if_neg hs]
    exact h

theorem stepCrashSigs_nodup (st : DataState) (tm : Timing)
    (h : st.tables.crashSignatures.Nodup) : (stepCrashSigs st tm).Nodup := by
  unfold stepCrashSigs
  by_cases hs : tm.status = "CRASH"
  · rw [if_pos hs]
    rcases hm : jsOrNull tm.crashSignature with _ | c
    · simp only [hm]
      exact h
    · simp only [hm]
      exact insertString_nodup _ h
  · rw [if_neg hs]
    exact h

theorem GroupInv_mono {t1 t2 : Tables} {s : Nat} {g : StatusGroup}
    (h : GroupInv t1 s g) (hs : s < t1.statuses.length)
    (hst : ∃ e, t2.statuses = t1.statuses ++ e)
    (htk : ∃ e, t2.taskIds = t1.taskIds ++ e)
    (hmg : ∃ e, t2.messages = t1.messages ++ e)
    (hcs : ∃ e, t2.crashSignatures = t1.crashSignatures ++ e) :
    GroupInv t2 s g := by
  obtain ⟨e1, he1⟩ := hst
  obtain ⟨e2, he2⟩ := htk
  obtain ⟨e3, he3⟩ := hmg
  obtain ⟨e4, he4⟩ := hcs
  have hgd : t2.statuses.getD s "" = t1.statuses.getD s "" := by
    rw [he1]
    exact getD_append_lt _ _ _ _ hs
  refine ⟨h.nonempty, ?_, h.durLen, h.tsLen, ?_, ?_, ?_, h.msgLen, ?_, h.csLen, ?_,
    h.mdLen⟩
  · intro x hx
    have := h.taskValid x hx
    rw [he2, List.length_append]
    omega
  · rw [hgd]
    exact h.msgIff
  · rw [hgd]
    exact h.csIff
  · rw [hgd]
    exact h.mdIff
  · intro ml hml o ho x hox
    have := h.msgValid ml hml o ho x hox
    rw [he3, List.length_append]
    omega
  · intro cl hcl o ho x hox
    have := h.csValid cl hcl o ho x hox
    rw [he4, List.length_append]
    omega

theorem timingStep_jobNames (jId rId : Nat) (task : String) (st : DataState) (tm : Timing) :
    (timingStep jId rId task st tm).tables.jobNames = st.tables.jobNames := by
  rw [timingStep_eq]

theorem timingStep_repositories (jId rId : Nat) (task : String) (st : DataState)
    (tm : Timing) :
    (timingStep jId rId task st tm).tables.repositories = st.tables.repositories := by
  rw [timingStep_eq]

theorem timingStep_statuses (jId rId : Nat) (task : String) (st : DataState) (tm : Timing) :
    (timingStep jId rId task st tm).tables.statuses
      = insertString st.tables.statuses (statusOrUnknown tm.status) := by
  rw [timingStep_eq]

theorem timingStep_taskIds (jId rId : Nat) (task : String) (st : DataState) (tm : Timing) :
    (timingStep jId rId task st tm).tables.taskIds
      = insertString st.tables.taskIds task := by
  rw [timingStep_eq]

theorem timingStep_messages (jId rId : Nat) (task : String) (st : DataState) (tm : Timing) :
    (timingStep jId rId task st tm).tables.messages = stepMessages st tm := by
  rw [timingStep_eq]

theorem timingStep_crashSignatures (jId rId : Nat) (task : String) (st : DataState)
    (tm : Timing) :
    (timingStep jId rId task st tm).tables.crashSignatures = stepCrashSigs st tm := by
  rw [timingStep_eq]

theorem timingStep_testPaths (jId rId : Nat) (task : String) (st : DataState) (tm : Timing) :
    (timingStep jId rId task st tm).tables.testPaths
      = (internTestStep st tm.path).tables.testPaths := by
  rw [timingStep_eq]

theorem timingStep_testNames (jId rId : Nat) (task : String) (st : DataState) (tm : Timing) :
    (timingStep jId rId task st tm).tables.testNames
      = (internTestStep st tm.path).tables.testNames := by
  rw [timingStep_eq]

theorem timingStep_testPathIds (jId rId : Nat) (task : String) (st : DataState)
    (tm : Timing) :
    (timingStep jId rId task st tm).testPathIds
      = (internTestStep st tm.path).testPathIds := by
  rw [timingStep_eq]

theorem timingStep_testNameIds (jId rId : Nat) (task : String) (st : DataState)
    (tm : Timing) :
    (timingStep jId rId task st tm).testNameIds
      = (internTestStep st tm.path).testNameIds := by
  rw [timingStep_eq]

theorem timingStep_testIdMap (jId rId : Nat) (task : String) (st : DataState) (tm : Timing) :
    (timingStep jId rId task st tm).testIdMap = insertString st.testIdMap tm.path := by
  rw [timingStep_eq]

theorem timingStep_taskRepositoryIds (jId rId : Nat) (task : String) (st : DataState)
    (tm : Timing) :
    (timingStep jId rId task st tm).taskRepositoryIds
      = if stepTaskIdId st task < st.taskRepositoryIds.length then st.taskRepositoryIds
        else st.taskRepositoryIds ++ [rId] := by
  rw [timingStep_eq]

theorem timingStep_taskJobNameIds (jId rId : Nat) (task : String) (st : DataState)
    (tm : Timing) :
    (timingStep jId rId task st tm).taskJobNameIds
      = if stepTaskIdId st task < st.taskRepositoryIds.length then st.taskJobNameIds
        else st.taskJobNameIds ++ [jId] := by
  rw [timingStep_eq]

theorem timingStep_testRuns (jId rId : Nat) (task : String) (st : DataState) (tm : Timing) :
    (timingStep jId rId task st tm).testRuns
      = (if stepTestId st tm < st.testRuns.length then st.testRuns
         else st.testRuns ++ [[]]).set (stepTestId st tm)
          (setAt (st.testRuns.getD (stepTestId st tm) []) (stepStatusId st tm)
            (updatedGroup (st.testRuns.getD (stepTestId st tm) [])
              (stepStatusId st tm) (stepTaskIdId st task) (jsRound tm.duration)
              tm.timestamp tm.status (stepMessageId st tm) (stepCrashSigId st tm)
              (jsOrNull tm.minidump))) := by
  rw [timingStep_eq]

theorem stepTestId_le {st : DataState} (tm : Timing)
    (hlen : st.testRuns.length = st.testIdMap.length) :
    stepTestId st tm ≤ st.testRuns.length := by
  rw [hlen, stepTestId_eq]
  by_cases hf : tm.path ∈ st.testIdMap
  · rw [insertString_mem _ hf]
    exact Nat.le_of_lt (List.indexOf_lt_length.mpr hf)
  · rw [insertString_not_mem _ hf, indexOf_append_self hf]

theorem timingStep_testRuns_length (jId rId : Nat) (task : String) (st : DataState)
    (tm : Timing) (hlen : st.testRuns.length = st.testIdMap.length) :
    (timingStep jId rId task st tm).testRuns.length
      = (insertString st.testIdMap tm.path).length := by
  rw [timingStep_testRuns, List.length_set]
  by_cases hf : tm.path ∈ st.testIdMap
  · rw [insertString_mem _ hf, if_pos (by rw [hlen, stepTestId_stale hf]; exact List.indexOf_lt_length.mpr hf)]
    exact hlen
  · rw [insertString_not_mem _ hf,
      if_neg (by rw [hlen, stepTestId_fresh hf]; omega), List.length_append,
      List.length_append]
    simp [hlen]

theorem timingStep_getSlot (jId rId : Nat) (task : String) (st : DataState) (tm : Timing)
    (hlen : st.testRuns.length = st.testIdMap.length) (t s : Nat) :
    getSlot (timingStep jId rId task st tm) t s
      = if t = stepTestId st tm ∧ s = stepStatusId st tm
        then some (updatedGroup (st.testRuns.getD (stepTestId st tm) [])
          (stepStatusId st tm) (stepTaskIdId st task) (jsRound tm.duration)
          tm.timestamp tm.status (stepMessageId st tm) (stepCrashSigId st tm)
          (jsOrNull tm.minidump))
        else getSlot st t s := by
  have hle := stepTestId_le tm hlen
  unfold getSlot
  rw [timingStep_testRuns]
  by_cases ht : t = stepTestId st tm
  · subst ht
    rw [getD_set_self]
    · by_cases hs : s = stepStatusId st tm
      · subst hs
        rw [getD_setAt_self, if_pos ⟨rfl, rfl⟩]
      · rw [getD_setAt_ne _ _ _ _ hs, if_neg (fun hp => hs hp.2)]
    · by_cases hc : stepTestId st tm < st.testRuns.length
      · rw [if_pos hc]
        exact hc
      · rw [if_neg hc, List.length_append]
        simp
        omega
  · by_cases hc : stepTestId st tm < st.testRuns.length
    · rw [if_pos hc, getD_set_ne _ _ _ _ _ ht, if_neg (fun hp => ht hp.1)]
    · rw [if_neg hc, getD_set_ne _ _ _ _ _ ht,
        getD_append_singleton_ne _ _ _ _ (fun he => ht (by omega)),
        if_neg (fun hp => ht hp.1)]

theorem stepStatusId_stale {st : DataState} {tm : Timing}
    (h : statusOrUnknown tm.status ∈ st.tables.statuses) :
    stepStatusId st tm = st.tables.statuses.indexOf (statusOrUnknown tm.status) := by
  unfold stepStatusId
  rw [findStringIndex_mem h]

theorem stepStatusId_fresh {st : DataState} {tm : Timing}
    (h : statusOrUnknown tm.status ∉ st.tables.statuses) :
    stepStatusId st tm = st.tables.statuses.length := by
  unfold stepStatusId
  rw [findStringIndex_not_mem h]

theorem stepTaskIdId_stale {st : DataState} {task : String}
    (h : task ∈ st.tables.taskIds) :
    stepTaskIdId st task = st.tables.taskIds.indexOf task := by
  unfold stepTaskIdId
  rw [findStringIndex_mem h]

theorem stepTaskIdId_fresh {st : DataState} {task : String}
    (h : task ∉ st.tables.taskIds) :
    stepTaskIdId st task = st.tables.taskIds.length := by
  unfold stepTaskIdId
  rw [findStringIndex_not_mem h]

theorem getD_some_lt {α : Type} {row : List (Option α)} {s : Nat} {g : α}
    (h : row.getD s none = some g) : s < row.length := by
  by_contra hc
  rw [getD_ge_length _ _ _ (Nat.le_of_not_lt hc)] at h
  exact Option.noConfusion h

theorem updatedGroup_inv_new (st : DataState) (tm : Timing) (task : String)
    (dur ts : Int) (row : List (Option StatusGroup)) (T : Tables)
    (h0 : row.getD (stepStatusId st tm) none = none)
    (hstat : T.statuses = insertString st.tables.statuses (statusOrUnknown tm.status))
    (htk : T.taskIds = insertString st.tables.taskIds task)
    (hmsg : T.messages = stepMessages st tm)
    (hcs : T.crashSignatures = stepCrashSigs st tm) :
    GroupInv T (stepStatusId st tm)
      (updatedGroup row (stepStatusId st tm) (stepTaskIdId st task) dur ts tm.status
        (stepMessageId st tm) (stepCrashSigId st tm) (jsOrNull tm.minidump)) := by
  have hgd : T.statuses.getD (stepStatusId st tm) "" = statusOrUnknown tm.status := by
    rw [hstat]
    exact stepStatusId_getD st tm
  have hbase : baseGroup row (stepStatusId st tm) tm.status
      = { taskIdIds := [], durations := [], timestamps := [],
          messageIds := if tm.status = "SKIP" then some [] else none,
          crashSignatureIds := if tm.status = "CRASH" then some [] else none,
          minidumps := if tm.status = "CRASH" then some [] else none } := by
    unfold baseGroup
    rw [h0]
  unfold updatedGroup
  rw [hbase]
  refine ⟨?_, ?_, ?_, ?_, ?_, ?_, ?_, ?_, ?_, ?_, ?_, ?_⟩
  · simp
  · intro x hx
    simp at hx
    subst hx
    rw [htk]
    exact stepTaskIdId_lt st task
  · simp
  · simp
  · rw [hgd, statusOrUnknown_eq_skip]
    by_cases hskip : tm.status = "SKIP" <;> simp [hskip]
  · rw [hgd, statusOrUnknown_eq_crash]
    by_cases hcr : tm.status = "CRASH" <;> simp [hcr]
  · rw [hgd, statusOrUnknown_eq_crash]
    by_cases hcr : tm.status = "CRASH" <;> simp [hcr]
  · intro ml hml
    by_cases hskip : tm.status = "SKIP"
    · simp only [if_pos hskip, Option.map_some', Option.some.injEq] at hml
      rw [← hml]
      simp
    · simp [if_neg hskip] at hml
  · intro ml hml o ho x hox
    by_cases hskip : tm.status = "SKIP"
    · simp only [if_pos hskip, Option.map_some', Option.some.injEq] at hml
      rw [← hml] at ho
      simp at ho
      subst ho
      unfold stepMessageId at hox
      rw [if_pos hskip] at hox
      rcases hm2 : jsOrNull tm.message with _ | m
      · rw [hm2] at hox
        simp at hox
      · rw [hm2] at hox
        simp at hox
        rw [hmsg]
        unfold stepMessages
        rw [if_pos hskip]
        simp only [hm2]
        rw [← hox]
        exact findStringIndex_lt _ _
    · simp [if_neg hskip] at hml
  · intro cl hcl
    by_cases hcr : tm.status = "CRASH"
    · simp only [if_pos hcr, Option.map_some', Option.some.injEq] at hcl
      rw [← hcl]
      simp
    · simp [if_neg hcr] at hcl
  · intro cl hcl o ho x hox
    by_cases hcr : tm.status = "CRASH"
    · simp only [if_pos hcr, Option.map_some', Option.some.injEq] at hcl
      rw [← hcl] at ho
      simp at ho
      subst ho
      unfold stepCrashSigId at hox
      rw [if_pos hcr] at hox
      rcases hc2 : jsOrNull tm.crashSignature with _ | c
      · rw [hc2] at hox
        simp at hox
      · rw [hc2] at hox
        simp at hox
        rw [hcs]
        unfold stepCrashSigs
        rw [if_pos hcr]
        simp only [hc2]
        rw [← hox]
        exact findStringIndex_lt _ _
    · simp [if_neg hcr] at hcl
  · intro dl hdl
    by_cases hcr : tm.status = "CRASH"
    · simp only [if_pos hcr, Option.map_some', Option.some.injEq] at hdl
      rw [← hdl]
      simp
    · simp [if_neg hcr] at hdl

theorem updatedGroup_inv_old (st : DataState) (tm : Timing) (task : String)
    (dur ts : Int) (row : List (Option StatusGroup)) (g0 : StatusGroup) (T : Tables)
    (h0 : row.getD (stepStatusId st tm) none = some g0)
    (hg0 : GroupInv st.tables (stepStatusId st tm) g0)
    (hSlt : stepStatusId st tm < st.tables.statuses.length)
    (hstat : T.statuses = insertString st.tables.statuses (statusOrUnknown tm.status))
    (htk : T.taskIds = insertString st.tables.taskIds task)
    (hmsg : T.messages = stepMessages st tm)
    (hcs : T.crashSignatures = stepCrashSigs st tm) :
    GroupInv T (stepStatusId st tm)
      (updatedGroup row (stepStatusId st tm) (stepTaskIdId st task) dur ts tm.status
        (stepMessageId st tm) (stepCrashSigId st tm) (jsOrNull tm.minidump)) := by
  have hmem : statusOrUnknown tm.status ∈ st.tables.statuses := by
    by_contra hnm
    rw [stepStatusId_fresh hnm] at hSlt
    omega
  have hold : st.tables.statuses.getD (stepStatusId st tm) ""
      = statusOrUnknown tm.status := by
    rw [stepStatusId_stale hmem]
    exact getD_indexOf hmem
  have hgd : T.statuses.getD (stepStatusId st tm) "" = statusOrUnknown tm.status := by
    rw [hstat]
    exact stepStatusId_getD st tm
  have hIffS : g0.messageIds.isSome = true ↔ tm.status = "SKIP" := by
    have h1 := hg0.msgIff
    rw [hold, statusOrUnknown_eq_skip] at h1
    exact h1
  have hIffC : g0.crashSignatureIds.isSome = true ↔ tm.status = "CRASH" := by
    have h1 := hg0.csIff
    rw [hold, statusOrUnknown_eq_crash] at h1
    exact h1
  have hIffM : g0.minidumps.isSome = true ↔ tm.status = "CRASH" := by
    have h1 := hg0.mdIff
    rw [hold, statusOrUnknown_eq_crash] at h1
    exact h1
  have hbase : baseGroup row (stepStatusId st tm) tm.status = g0 := by
    unfold baseGroup
    rw [h0]
  unfold updatedGroup
  rw [hbase]
  refine ⟨?_, ?_, ?_, ?_, ?_, ?_, ?_, ?_, ?_, ?_, ?_, ?_⟩
  · simp
  · intro x hx
    rw [htk]
    rcases List.mem_append.mp hx with h | h
    · have := hg0.taskValid x h
      have hle := insertString_length_ge st.tables.taskIds task
      omega
    · simp at h
      subst h
      exact stepTaskIdId_lt st task
  · simp [hg0.durLen]
  · simp [hg0.tsLen]
  · rw [hgd, statusOrUnknown_eq_skip]
    by_cases hskip : tm.status = "SKIP"
    · simp only [if_pos hskip, Option.isSome_map']
      exact iff_of_true (hIffS.mpr hskip) hskip
    · simp only [if_neg hskip]
      exact iff_of_false (fun hs => hskip (hIffS.mp hs)) hskip
  · rw [hgd, statusOrUnknown_eq_crash]
    by_cases hcr : tm.status = "CRASH"
    · simp only [if_pos hcr, Option.isSome_map']
      exact iff_of_true (hIffC.mpr hcr) hcr
    · simp only [if_neg hcr]
      exact iff_of_false (fun hs => hcr (hIffC.mp hs)) hcr
  · rw [hgd, statusOrUnknown_eq_crash]
    by_cases hcr : tm.status = "CRASH"
    · simp only [if_pos hcr, Option.isSome_map']
      exact iff_of_true (hIffM.mpr hcr) hcr
    · simp only [if_neg hcr]
      exact iff_of_false (fun hs => hcr (hIffM.mp hs)) hcr
  · intro ml hml
    by_cases hskip : tm.status = "SKIP"
    · simp only [if_pos hskip] at hml
      obtain ⟨ml0, hml0, hml1⟩ := Option.map_eq_some'.mp hml
      rw [← hml1]
      simp [hg0.msgLen ml0 hml0]
    · simp only [if_neg hskip] at hml
      have hs : g0.messageIds.isSome = true := by
        rw [hml]
        rfl
      exact absurd (hIffS.mp hs) hskip
  · intro ml hml o ho x hox
    rw [hmsg]
    by_cases hskip : tm.status = "SKIP"
    · simp only [if_pos hskip] at hml
      obtain ⟨ml0, hml0, hml1⟩ := Option.map_eq_some'.mp hml
      rw [← hml1] at ho
      rcases List.mem_append.mp ho with h | h
      · have := hg0.msgValid ml0 hml0 o h x hox
        obtain ⟨e, he⟩ := stepMessages_ext st tm
        rw [he, List.length_append]
        omega
      · simp at h
        subst h
        unfold stepMessageId at hox
        rw [if_pos hskip] at hox
        rcases hm2 : jsOrNull tm.message with _ | m
        · rw [hm2] at hox
          simp at hox
        · rw [hm2] at hox
          simp at hox
          unfold stepMessages
          rw [if_pos hskip]
          simp only [hm2]
          rw [← hox]
          exact findStringIndex_lt _ _
    · simp only [if_neg hskip] at hml
      have hs : g0.messageIds.isSome = true := by
        rw [hml]
        rfl
      exact absurd (hIffS.mp hs) hskip
  · intro cl hcl
    by_cases hcr : tm.status = "CRASH"
    · simp only [if_pos hcr] at hcl
      obtain ⟨cl0, hcl0, hcl1⟩ := Option.map_eq_some'.mp hcl
      rw [← hcl1]
      simp [hg0.csLen cl0 hcl0]
    · simp only [if_neg hcr] at hcl
      have hs : g0.crashSignatureIds.isSome = true := by
        rw [hcl]
        rfl
      exact absurd (hIffC.mp hs) hcr
  · intro cl hcl o ho x hox
    rw [hcs]
    by_cases hcr : tm.status = "CRASH"
    · simp only [if_pos hcr] at hcl
      obtain ⟨cl0, hcl0, hcl1⟩ := Option.map_eq_some'.mp hcl
      rw [← hcl1] at ho
      rcases List.mem_append.mp ho with h | h
      · have := hg0.csValid cl0 hcl0 o h x hox
        obtain ⟨e, he⟩ := stepCrashSigs_ext st tm
        rw [he, List.length_append]
        omega
      · simp at h
        subst h
        unfold stepCrashSigId at hox
        rw [if_pos hcr] at hox
        rcases hc2 : jsOrNull tm.crashSignature with _ | c
        · rw [hc2] at hox
          simp at hox
        · rw [hc2] at hox
          simp at hox
          unfold stepCrashSigs
          rw [if_pos hcr]
          simp only [hc2]
          rw [← hox]
          exact findStringIndex_lt _ _
    · simp only [if_neg hcr] at hcl
      have hs : g0.crashSignatureIds.isSome = true := by
        rw [hcl]
        rfl
      exact absurd (hIffC.mp hs) hcr
  · intro dl hdl
    by_cases hcr : tm.status = "CRASH"
    · simp only [if_pos hcr] at hdl
      obtain ⟨dl0, hdl0, hdl1⟩ := Option.map_eq_some'.mp hdl
      rw [← hdl1]
      simp [hg0.mdLen dl0 hdl0]
    · simp only [if_neg hcr] at hdl
      have hs : g0.minidumps.isSome = true := by
        rw [hdl]
        rfl
      exact absurd (hIffM.mp hs) hcr

theorem timingStep_encinv (jId rId : Nat) (task : String) (st : DataState) (tm : Timing)
    (hinv : EncInv st) (hj : jId < st.tables.jobNames.length)
    (hr : rId < st.tables.repositories.length) :
    EncInv (timingStep jId rId task st tm) := by
  refine ⟨?_, ?_, ?_, ?_, ?_, ?_, ?_, ?_, ?_, ?_, ?_, ?_, ?_, ?_, ?_, ?_, ?_, ?_, ?_, ?_⟩
  · rw [timingStep_jobNames]
    exact hinv.ndJobNames
  · rw [timingStep_testPaths]
    by_cases hf : tm.path ∈ st.testIdMap
    · rw [internTestStep_stale hf]
      exact hinv.ndTestPaths
    · rw [internTestStep_fresh hf]
      exact insertString_nodup _ hinv.ndTestPaths
  · rw [timingStep_testNames]
    by_cases hf : tm.path ∈ st.testIdMap
    · rw [internTestStep_stale hf]
      exact hinv.ndTestNames
    · rw [internTestStep_fresh hf]
      exact insertString_nodup _ hinv.ndTestNames
  · rw [timingStep_repositories]
    exact hinv.ndRepos
  · rw [timingStep_statuses]
    exact insertString_nodup _ hinv.ndStatuses
  · rw [timingStep_taskIds]
    exact insertString_nodup _ hinv.ndTaskIds
  · rw [timingStep_messages]
    exact stepMessages_nodup st tm hinv.ndMessages
  · rw [timingStep_crashSignatures]
    exact stepCrashSigs_nodup st tm hinv.ndCrashSigs
  · rw [timingStep_testIdMap]
    exact insertString_nodup _ hinv.ndMap
  · rw [timingStep_taskRepositoryIds, timingStep_taskIds]
    by_cases hmt : task ∈ st.tables.taskIds
    · rw [if_pos (by
        rw [stepTaskIdId_stale hmt, hinv.lenRepo]
        exact List.indexOf_lt_length.mpr hmt), insertString_mem _ hmt]
      exact hinv.lenRepo
    · rw [if_neg (by
        rw [stepTaskIdId_fresh hmt, hinv.lenRepo]
        omega), insertString_not_mem _ hmt]
      simp [hinv.lenRepo]
  · rw [timingStep_taskJobNameIds, timingStep_taskIds]
    by_cases hmt : task ∈ st.tables.taskIds
    · rw [if_pos (by
        rw [stepTaskIdId_stale hmt, hinv.lenRepo]
        exact List.indexOf_lt_length.mpr hmt), insertString_mem _ hmt]
      exact hinv.lenJob
    · rw [if_neg (by
        rw [stepTaskIdId_fresh hmt, hinv.lenRepo]
        omega), insertString_not_mem _ hmt]
      simp [hinv.lenJob]
  · rw [timingStep_testPathIds, timingStep_testIdMap]
    by_cases hf : tm.path ∈ st.testIdMap
    · rw [internTestStep_stale hf, insertString_mem _ hf]
      exact hinv.lenPath
    · rw [internTestStep_fresh hf, insertString_not_mem _ hf]
      simp [hinv.lenPath]
  · rw [timingStep_testNameIds, timingStep_testIdMap]
    by_cases hf : tm.path ∈ st.testIdMap
    · rw [internTestStep_stale hf, insertString_mem _ hf]
      exact hinv.lenName
    · rw [internTestStep_fresh hf, insertString_not_mem _ hf]
      simp [hinv.lenName]
  · rw [timingStep_testRuns_length _ _ _ _ _ hinv.lenRuns, timingStep_testIdMap]
  · rw [timingStep_taskRepositoryIds, timingStep_repositories]
    by_cases hc : stepTaskIdId st task < st.taskRepositoryIds.length
    · rw [if_pos hc]
      exact hinv.validRepo
    · rw [if_neg hc]
      intro x hx
      rcases List.mem_append.mp hx with h | h
      · exact hinv.validRepo x h
      · simp at h
        subst h
        exact hr
  · rw [timingStep_taskJobNameIds, timingStep_jobNames]
    by_cases hc : stepTaskIdId st task < st.taskRepositoryIds.length
    · rw [if_pos hc]
      exact hinv.validJob
    · rw [if_neg hc]
      intro x hx
      rcases List.mem_append.mp hx with h | h
      · exact hinv.validJob x h
      · simp at h
        subst h
        exact hj
  · rw [timingStep_testPathIds, timingStep_testPaths]
    by_cases hf : tm.path ∈ st.testIdMap
    · rw [internTestStep_stale hf]
      exact hinv.validPath
    · rw [internTestStep_fresh hf]
      intro x hx
      rcases List.mem_append.mp hx with h | h
      · have h1 := hinv.validPath x h
        have h2 := insertString_length_ge st.tables.testPaths (dirPart tm.path)
        dsimp only
        omega
      · simp at h
        subst h
        exact findStringIndex_lt _ _
  · rw [timingStep_testNameIds, timingStep_testNames]
    by_cases hf : tm.path ∈ st.testIdMap
    · rw [internTestStep_stale hf]
      exact hinv.validName
    · rw [internTestStep_fresh hf]
      intro x hx
      rcases List.mem_append.mp hx with h | h
      · have h1 := hinv.validName x h
        have h2 := insertString_length_ge st.tables.testNames (namePart tm.path)
        dsimp only
        omega
      · simp at h
        subst h
        exact findStringIndex_lt _ _
  · intro row hrow
    rw [timingStep_testRuns] at hrow
    rw [timingStep_statuses]
    have hSlt := stepStatusId_lt st tm
    have hle := insertString_length_ge st.tables.statuses (statusOrUnknown tm.status)
    rcases mem_set hrow with h | h
    · subst h
      rw [length_setAt]
      have h0 : (st.testRuns.getD (stepTestId st tm) []).length
          ≤ st.tables.statuses.length := by
        by_cases hc : stepTestId st tm < st.testRuns.length
        · exact hinv.rowLen _ (getD_mem hc)
        · rw [getD_ge_length _ _ _ (Nat.le_of_not_lt hc)]
          simp
      omega
    · by_cases hc : stepTestId st tm < st.testRuns.length
      · rw [if_pos hc] at h
        have := hinv.rowLen row h
        omega
      · rw [if_neg hc] at h
        rcases List.mem_append.mp h with h1 | h1
        · have := hinv.rowLen row h1
          omega
        · simp at h1
          subst h1
          simp
  · intro t s g hg
    rw [timingStep_getSlot _ _ _ _ _ hinv.lenRuns] at hg
    by_cases hn : t = stepTestId st tm ∧ s = stepStatusId st tm
    · rw [if_pos hn] at hg
      obtain ⟨h1, h2⟩ := hn
      subst h1
      subst h2
      have hG := Option.some.inj hg
      rcases hrow0 : (st.testRuns.getD (stepTestId st tm) []).getD (stepStatusId st tm)
          none with _ | g0
      · rw [← hG]
        exact updatedGroup_inv_new st tm task _ _ _ _ hrow0
          (timingStep_statuses _ _ _ _ _) (timingStep_taskIds _ _ _ _ _)
          (timingStep_messages _ _ _ _ _) (timingStep_crashSignatures _ _ _ _ _)
      · have hg0 := hinv.groups (stepTestId st tm) (stepStatusId st tm) g0 hrow0
        have hSlt2 : stepStatusId st tm < st.tables.statuses.length := by
          have hsr := getD_some_lt hrow0
          have hT : stepTestId st tm < st.testRuns.length := by
            by_contra hc
            rw [getD_ge_length _ _ _ (Nat.le_of_not_lt hc)] at hrow0
            simp at hrow0
          have := hinv.rowLen _ (@getD_mem _ st.testRuns (stepTestId st tm) [] hT)
          omega
        rw [← hG]
        exact updatedGroup_inv_old st tm task _ _ _ g0 _ hrow0 hg0 hSlt2
          (timingStep_statuses _ _ _ _ _) (timingStep_taskIds _ _ _ _ _)
          (timingStep_messages _ _ _ _ _) (timingStep_crashSignatures _ _ _ _ _)
    · rw [if_neg hn] at hg
      have hgi := hinv.groups t s g hg
      have hs2 : s < st.tables.statuses.length := by
        have hsr := getD_some_lt hg
        have hT : t < st.testRuns.length := by
          by_contra hc
          rw [show getSlot st t s = (st.testRuns.getD t []).getD s none from rfl,
            getD_ge_length _ _ _ (Nat.le_of_not_lt hc)] at hg
          simp at hg
        have := hinv.rowLen _ (@getD_mem _ st.testRuns t [] hT)
        omega
      refine GroupInv_mono hgi hs2 ?_ ?_ ?_ ?_
      · rw [timingStep_statuses]
        exact insertString_ext _ _
      · rw [timingStep_taskIds]
        exact insertString_ext _ _
      · rw [timingStep_messages]
        exact stepMessages_ext st tm
      · rw [timingStep_crashSignatures]
        exact stepCrashSigs_ext st tm

theorem foldedEvent_extend_state {st nst : DataState} {results : List JobResult}
    {t s : Nat} (hmap : ∃ e, nst.testIdMap = st.testIdMap ++ e)
    (hstt : ∃ e, nst.tables.statuses = st.tables.statuses ++ e)
    (h : FoldedEvent st results t s) : FoldedEvent nst results t s := by
  obtain ⟨r, hr, tm, htm, h1, h2, h3, h4⟩ := h
  obtain ⟨e1, he1⟩ := hmap
  obtain ⟨e2, he2⟩ := hstt
  refine ⟨r, hr, tm, htm, ?_, ?_, ?_, ?_⟩
  · rw [he1]
    exact mem_append_stable h1
  · rw [he1, indexOf_ext_stable h1]
    exact h2
  · rw [he2]
    exact mem_append_stable h3
  · rw [he2, indexOf_ext_stable h3]
    exact h4

theorem foldedEvent_extend_results {st : DataState} {processed : List JobResult}
    {r : JobResult} {done : List Timing} {tm : Timing} {t s : Nat}
    (h : FoldedEvent st (processed ++ [{ r with timings := done }]) t s) :
    FoldedEvent st (processed ++ [{ r with timings := done ++ [tm] }]) t s := by
  obtain ⟨r', hr', tm', htm', rest⟩ := h
  rcases List.mem_append.mp hr' with hin | hin
  · exact ⟨r', List.mem_append_left _ hin, tm', htm', rest⟩
  · have hre : r' = { r with timings := done } := List.mem_singleton.mp hin
    subst hre
    exact ⟨{ r with timings := done ++ [tm] },
      List.mem_append_right _ (List.mem_singleton_self _), tm',
      List.mem_append_left _ htm', rest⟩

theorem timingStep_pstate {processed : List JobResult} {r : JobResult} {done : List Timing}
    {st : DataState} (tm : Timing) (jId rId : Nat)
    (hj : jId < st.tables.jobNames.length) (hr : rId < st.tables.repositories.length)
    (hP : PState (processed ++ [{ r with timings := done }]) st) :
    PState (processed ++ [{ r with timings := done ++ [tm] }])
      (timingStep jId rId (taskIdStringOf r) st tm) := by
  have hlen := hP.inv.lenRuns
  have hmap2 : ∃ e, (timingStep jId rId (taskIdStringOf r) st tm).testIdMap
      = st.testIdMap ++ e := by
    rw [timingStep_testIdMap]
    exact insertString_ext _ _
  have hstt2 : ∃ e, (timingStep jId rId (taskIdStringOf r) st tm).tables.statuses
      = st.tables.statuses ++ e := by
    rw [timingStep_statuses]
    exact insertString_ext _ _
  have hfsmap : firstSeen (allPaths (processed ++ [{ r with timings := done ++ [tm] }]))
      = insertString st.testIdMap tm.path := by
    have h1 : allPaths (processed ++ [{ r with timings := done ++ [tm] }])
        = allPaths (processed ++ [{ r with timings := done }]) ++ [tm.path] := by
      rw [allPaths_append, allPaths_append]
      dsimp only
      rw [List.map_append]
      simp
    rw [h1, firstSeen_append_one, ← hP.map]
  refine ⟨timingStep_encinv _ _ _ _ _ hP.inv hj hr, ?_, ?_, ?_, ?_, ?_, ?_, ?_, ?_, ?_,
    ?_, ?_⟩
  · intro t s
    rw [timingStep_getSlot _ _ _ _ _ hlen t s]
    by_cases hn : t = stepTestId st tm ∧ s = stepStatusId st tm
    · rw [if_pos hn]
      obtain ⟨h1, h2⟩ := hn
      refine iff_of_true rfl ⟨{ r with timings := done ++ [tm] },
        List.mem_append_right _ (List.mem_singleton_self _), tm,
        List.mem_append_right _ (List.mem_singleton_self _), ?_, ?_, ?_, ?_⟩
      · rw [timingStep_testIdMap]
        exact insertString_self_mem _ _
      · rw [timingStep_testIdMap, ← stepTestId_eq]
        exact h1.symm
      · rw [timingStep_statuses]
        exact insertString_self_mem _ _
      · rw [timingStep_statuses, stepStatusId_indexOf]
        exact h2.symm
    · rw [if_neg hn, hP.occ t s]
      constructor
      · intro h
        exact foldedEvent_extend_state hmap2 hstt2 (foldedEvent_extend_results h)
      · intro h
        obtain ⟨r', hr', tm', htm', hm1, hi1, hm2, hi2⟩ := h
        rw [timingStep_testIdMap] at hm1 hi1
        rw [timingStep_statuses] at hm2 hi2
        rcases List.mem_append.mp hr' with hin | hin
        · have hint := hP.interned r' (List.mem_append_left _ hin) tm' htm'
          refine ⟨r', List.mem_append_left _ hin, tm', htm', hint.1, ?_, hint.2, ?_⟩
          · rw [← hi1, indexOf_insertString _ hint.1]
          · rw [← hi2, indexOf_insertString _ hint.2]
        · have hre : r' = { r with timings := done ++ [tm] } := List.mem_singleton.mp hin
          subst hre
          rcases List.mem_append.mp htm' with htin | htin
          · have hint := hP.interned { r with timings := done }
              (List.mem_append_right _ (List.mem_singleton_self _)) tm' htin
            refine ⟨{ r with timings := done },
              List.mem_append_right _ (List.mem_singleton_self _), tm', htin, hint.1,
              ?_, hint.2, ?_⟩
            · rw [← hi1, indexOf_insertString _ hint.1]
            · rw [← hi2, indexOf_insertString _ hint.2]
          · have hte : tm' = tm := List.mem_singleton.mp htin
            subst hte
            exfalso
            apply hn
            constructor
            · rw [← hi1, ← stepTestId_eq]
            · rw [← hi2, stepStatusId_indexOf]
  · intro r' hr' tm' htm'
    rcases List.mem_append.mp hr' with hin | hin
    · have hint := hP.interned r' (List.mem_append_left _ hin) tm' htm'
      refine ⟨?_, ?_⟩
      · rw [timingStep_testIdMap]
        exact mem_insertString _ hint.1
      · rw [timingStep_statuses]
        exact mem_insertString _ hint.2
    · have hre : r' = { r with timings := done ++ [tm] } := List.mem_singleton.mp hin
      subst hre
      rcases List.mem_append.mp htm' with htin | htin
      · have hint := hP.interned { r with timings := done }
          (List.mem_append_right _ (List.mem_singleton_self _)) tm' htin
        refine ⟨?_, ?_⟩
        · rw [timingStep_testIdMap]
          exact mem_insertString _ hint.1
        · rw [timingStep_statuses]
          exact mem_insertString _ hint.2
      · have hte : tm' = tm := List.mem_singleton.mp htin
        subst hte
        refine ⟨?_, ?_⟩
        · rw [timingStep_testIdMap]
          exact insertString_self_mem _ _
        · rw [timingStep_statuses]
          exact insertString_self_mem _ _
  · rw [timingStep_jobNames, hP.jn, jobNameEncounters_append, jobNameEncounters_append]
  · rw [timingStep_repositories, hP.rp, repositoryEncounters_append,
      repositoryEncounters_append]
  · rw [timingStep_statuses, hP.stt, statusEncounters_append, statusEncounters_append,
      List.map_append]
    simp only [List.map_cons, List.map_nil]
    rw [← List.append_assoc, firstSeen_append_one]
  · rw [timingStep_taskIds, hP.tid, taskIdEncounters_append, taskIdEncounters_append,
      List.map_append]
    simp only [List.map_cons, List.map_nil]
    rw [← List.append_assoc, firstSeen_append_one]
    rfl
  · rw [timingStep_messages]
    unfold stepMessages
    rw [hP.msg, messageEncounters_append, messageEncounters_append,
      List.filterMap_append]
    by_cases hskip : tm.status = "SKIP"
    · rw [if_pos hskip]
      rcases hm2 : jsOrNull tm.message with _ | m
      · simp only [hm2, List.filterMap_cons, List.filterMap_nil, if_pos hskip]
        simp
      · simp only [hm2, List.filterMap_cons, List.filterMap_nil, if_pos hskip]
        rw [← List.append_assoc, firstSeen_append_one]
    · rw [if_neg hskip]
      simp only [List.filterMap_cons, List.filterMap_nil, if_neg hskip]
      simp
  · rw [timingStep_crashSignatures]
    unfold stepCrashSigs
    rw [hP.csg, crashSigEncounters_append, crashSigEncounters_append,
      List.filterMap_append]
    by_cases hcr : tm.status = "CRASH"
    · rw [if_pos hcr]
      rcases hc2 : jsOrNull tm.crashSignature with _ | c
      · simp only [hc2, List.filterMap_cons, List.filterMap_nil, if_pos hcr]
        simp
      · simp only [hc2, List.filterMap_cons, List.filterMap_nil, if_pos hcr]
        rw [← List.append_assoc, firstSeen_append_one]
    · rw [if_neg hcr]
      simp only [List.filterMap_cons, List.filterMap_nil, if_neg hcr]
      simp
  · rw [timingStep_testIdMap, hfsmap]
  · rw [timingStep_testPaths, hfsmap]
    have hpv : st.tables.testPaths = firstSeen (st.testIdMap.map dirPart) := by
      rw [hP.tps, hP.map]
    by_cases hf : tm.path ∈ st.testIdMap
    · rw [internTestStep_stale hf, insertString_mem _ hf]
      exact hpv
    · rw [internTestStep_fresh hf, insertString_not_mem _ hf]
      dsimp only
      rw [List.map_append]
      simp only [List.map_cons, List.map_nil]
      rw [firstSeen_append_one, ← hpv]
  · rw [timingStep_testNames, hfsmap]
    have hnv : st.tables.testNames = firstSeen (st.testIdMap.map namePart) := by
      rw [hP.tns, hP.map]
    by_cases hf : tm.path ∈ st.testIdMap
    · rw [internTestStep_stale hf, insertString_mem _ hf]
      exact hnv
    · rw [internTestStep_fresh hf, insertString_not_mem _ hf]
      dsimp only
      rw [List.map_append]
      simp only [List.map_cons, List.map_nil]
      rw [firstSeen_append_one, ← hnv]

theorem GroupInv_congr {t1 t2 : Tables} {s : Nat} {g : StatusGroup}
    (h : GroupInv t1 s g) (hst : t2.statuses = t1.statuses)
    (htk : t2.taskIds = t1.taskIds) (hmg : t2.messages = t1.messages)
    (hcs : t2.crashSignatures = t1.crashSignatures) : GroupInv t2 s g := by
  refine ⟨h.nonempty, ?_, h.durLen, h.tsLen, ?_, ?_, ?_, h.msgLen, ?_, h.csLen, ?_,
    h.mdLen⟩
  · rw [htk]
    exact h.taskValid
  · rw [hst]
    exact h.msgIff
  · rw [hst]
    exact h.csIff
  · rw [hst]
    exact h.mdIff
  · rw [hmg]
    exact h.msgValid
  · rw [hcs]
    exact h.csValid

theorem timingLoop (jId rId : Nat) (processed : List JobResult) (r : JobResult)
    (ts : List Timing) :
    ∀ (done : List Timing) (st : DataState),
      jId < st.tables.jobNames.length → rId < st.tables.repositories.length →
      PState (processed ++ [{ r with timings := done }]) st →
      PState (processed ++ [{ r with timings := done ++ ts }])
        (ts.foldl (timingStep jId rId (taskIdStringOf r)) st) := by
  induction ts with
  | nil =>
    intro done st hj hr hP
    simpa using hP
  | cons t ts ih =>
    intro done st hj hr hP
    have h1 := timingStep_pstate t jId rId hj hr hP
    have h2 := ih (done ++ [t]) _
      (by rw [timingStep_jobNames]; exact hj)
      (by rw [timingStep_repositories]; exact hr) h1
    simpa [List.append_assoc] using h2

theorem jobInit_pstate {processed : List JobResult} {st : DataState} (r : JobResult)
    (hP : PState processed st) :
    PState (processed ++ [{ r with timings := [] }])
      { st with tables := { st.tables with
          jobNames := insertString st.tables.jobNames r.jobName,
          repositories := insertString st.tables.repositories r.repository } } := by
  refine ⟨⟨?_, ?_, ?_, ?_, ?_, ?_, ?_, ?_, ?_, ?_, ?_, ?_, ?_, ?_, ?_, ?_, ?_, ?_, ?_,
    ?_⟩, ?_, ?_, ?_, ?_, ?_, ?_, ?_, ?_, ?_, ?_, ?_⟩
  · exact insertString_nodup _ hP.inv.ndJobNames
  · exact hP.inv.ndTestPaths
  · exact hP.inv.ndTestNames
  · exact insertString_nodup _ hP.inv.ndRepos
  · exact hP.inv.ndStatuses
  · exact hP.inv.ndTaskIds
  · exact hP.inv.ndMessages
  · exact hP.inv.ndCrashSigs
  · exact hP.inv.ndMap
  · exact hP.inv.lenRepo
  · exact hP.inv.lenJob
  · exact hP.inv.lenPath
  · exact hP.inv.lenName
  · exact hP.inv.lenRuns
  · intro x hx
    have h1 := hP.inv.validRepo x hx
    have h2 := insertString_length_ge st.tables.repositories r.repository
    dsimp only
    omega
  · intro x hx
    have h1 := hP.inv.validJob x hx
    have h2 := insertString_length_ge st.tables.jobNames r.jobName
    dsimp only
    omega
  · exact hP.inv.validPath
  · exact hP.inv.validName
  · exact hP.inv.rowLen
  · intro t s g hg
    exact GroupInv_congr (hP.inv.groups t s g hg) rfl rfl rfl rfl
  · intro t s
    constructor
    · intro h
      obtain ⟨r', hr', rest⟩ := (hP.occ t s).mp h
      exact ⟨r', List.mem_append_left _ hr', rest⟩
    · intro h
      obtain ⟨r', hr', tm', htm', rest⟩ := h
      rcases List.mem_append.mp hr' with hin | hin
      · exact (hP.occ t s).mpr ⟨r', hin, tm', htm', rest⟩
      · have hre : r' = { r with timings := [] } := List.mem_singleton.mp hin
        subst hre
        simp at htm'
  · intro r' hr' tm' htm'
    rcases List.mem_append.mp hr' with hin | hin
    · exact hP.interned r' hin tm' htm'
    · have hre : r' = { r with timings := [] } := List.mem_singleton.mp hin
      subst hre
      simp at htm'
  · dsimp only
    rw [jobNameEncounters_append, firstSeen_append_one, ← hP.jn]
  · dsimp only
    rw [repositoryEncounters_append, firstSeen_append_one, ← hP.rp]
  · dsimp only
    rw [statusEncounters_append]
    simp only [List.map_nil, List.append_nil]
    exact hP.stt
  · dsimp only
    rw [taskIdEncounters_append]
    simp only [List.map_nil, List.append_nil]
    exact hP.tid
  · dsimp only
    rw [messageEncounters_append]
    simp only [List.filterMap_nil, List.append_nil]
    exact hP.msg
  · dsimp only
    rw [crashSigEncounters_append]
    simp only [List.filterMap_nil, List.append_nil]
    exact hP.csg
  · dsimp only
    rw [allPaths_append]
    simp only [List.map_nil, List.append_nil]
    exact hP.map
  · dsimp only
    rw [allPaths_append]
    simp only [List.map_nil, List.append_nil]
    exact hP.tps
  · dsimp only
    rw [allPaths_append]
    simp only [List.map_nil, List.append_nil]
    exact hP.tns

theorem jobStep_pstate {processed : List JobResult} {st : DataState} (r : JobResult)
    (hP : PState processed st) : PState (processed ++ [r]) (jobStep st r) := by
  unfold jobStep
  dsimp only
  have h0 := jobInit_pstate r hP
  have h1 := timingLoop (findStringIndex st.tables.jobNames r.jobName).1
    (findStringIndex st.tables.repositories r.repository).1 processed r r.timings [] _
    (findStringIndex_lt _ _) (findStringIndex_lt _ _) h0
  simpa using h1

theorem pstate_empty : PState [] {} := by
  refine ⟨⟨?_, ?_, ?_, ?_, ?_, ?_, ?_, ?_, ?_, rfl, rfl, rfl, rfl, rfl, ?_, ?_, ?_, ?_,
    ?_, ?_⟩, ?_, ?_, rfl, rfl, rfl, rfl, rfl, rfl, rfl, rfl, rfl⟩
  · exact List.nodup_nil
  · exact List.nodup_nil
  · exact List.nodup_nil
  · exact List.nodup_nil
  · exact List.nodup_nil
  · exact List.nodup_nil
  · exact List.nodup_nil
  · exact List.nodup_nil
  · exact List.nodup_nil
  · intro x hx
    simp at hx
  · intro x hx
    simp at hx
  · intro x hx
    simp at hx
  · intro x hx
    simp at hx
  · intro row hrow
    simp at hrow
  · intro t s g hg
    simp [getSlot] at hg
  · intro t s
    constructor
    · intro h
      simp [getSlot] at h
    · intro h
      obtain ⟨r', hr', _⟩ := h
      simp at hr'
  · intro r' hr'
    simp at hr'

theorem createDataTables_pstate (results : List JobResult) :
    PState results (createDataTables results) := by
  unfold createDataTables
  suffices h : ∀ (acc : List JobResult) (st : DataState), PState acc st →
      PState (acc ++ results) (results.foldl jobStep st) by
    simpa using h [] {} pstate_empty
  induction results with
  | nil =>
    intro acc st hP
    simpa using hP
  | cons r rs ih =>
    intro acc st hP
    have h1 := jobStep_pstate r hP
    have h2 := ih (acc ++ [r]) _ h1
    simpa [List.append_assoc] using h2

theorem slot_status_lt {st : DataState} (hinv : EncInv st) {t s : Nat} {g : StatusGroup}
    (hg : getSlot st t s = some g) : s < st.tables.statuses.length := by
  have hsr := getD_some_lt hg
  have hT : t < st.testRuns.length := by
    by_contra hc
    rw [show getSlot st t s = (st.testRuns.getD t []).getD s none from rfl,
      getD_ge_length _ _ _ (Nat.le_of_not_lt hc)] at hg
    simp at hg
  have := hinv.rowLen _ (@getD_mem _ st.testRuns t [] hT)
  omega

/-- Claim C2: a status group's optional side-channel arrays (`messageIds`
for SKIP; `crashSignatureIds` and `minidumps` for CRASH) are present exactly
when some event folded into the group's `(testId, statusId)` cell has that
status type, and the shape chosen at creation applies uniformly: every run
of the group contributes one slot to each present side-channel array (and
to `durations`/`timestamps`). -/
theorem c2_side_channel_shape (results : List JobResult) (t s : Nat) (g : StatusGroup)
    (hg : getSlot (createDataTables results) t s = some g) :
    (g.messageIds.isSome = true
      ↔ FoldedEventWithStatus (createDataTables results) results t s "SKIP")
    ∧ (g.crashSignatureIds.isSome = true
      ↔ FoldedEventWithStatus (createDataTables results) results t s "CRASH")
    ∧ (g.minidumps.isSome = true
      ↔ FoldedEventWithStatus (createDataTables results) results t s "CRASH")
    ∧ g.durations.length = g.taskIdIds.length
    ∧ g.timestamps.length = g.taskIdIds.length
    ∧ (∀ ml, g.messageIds = some ml → ml.length = g.taskIdIds.length)
    ∧ (∀ cl, g.crashSignatureIds = some cl → cl.length = g.taskIdIds.length)
    ∧ (∀ dl, g.minidumps = some dl → dl.length = g.taskIdIds.length) := by
  have hP := createDataTables_pstate results
  have hGI := hP.inv.groups t s g hg
  have hOcc : FoldedEvent (createDataTables results) results t s :=
    (hP.occ t s).mp (by rw [hg]; rfl)
  have hIff : ∀ status : String,
      ((createDataTables results).tables.statuses.getD s "" = status
        ↔ FoldedEventWithStatus (createDataTables results) results t s status) := by
    intro status
    constructor
    · intro hgd
      obtain ⟨r, hr, tm, htm, h1, h2, h3, h4⟩ := hOcc
      refine ⟨r, hr, tm, htm, h1, h2, h3, h4, ?_⟩
      have h5 := getD_indexOf h3
      rw [h4] at h5
      exact h5.symm.trans hgd
    · intro hF
      obtain ⟨r, hr, tm, htm, h1, h2, h3, h4, h5⟩ := hF
      have h6 := getD_indexOf h3
      rw [h4] at h6
      rw [h6]
      exact h5
  exact ⟨hGI.msgIff.trans (hIff "SKIP"), hGI.csIff.trans (hIff "CRASH"),
    hGI.mdIff.trans (hIff "CRASH"), hGI.durLen, hGI.tsLen, hGI.msgLen, hGI.csLen,
    hGI.mdLen⟩

/-- Witness for C2 on the concrete SKIP/PASS job. -/
theorem c2_side_channel_shape_witness :
    getSlot (createDataTables [skipJobResult]) 0 0
      = some { taskIdIds := [0, 0], durations := [1, 2], timestamps := [1000, 2000],
               messageIds := some [some 0, none], crashSignatureIds := none,
               minidumps := none }
    ∧ (((some [some 0, none] : Option (List (Option Nat))).isSome = true
        ↔ FoldedEventWithStatus (createDataTables [skipJobResult]) [skipJobResult] 0 0
            "SKIP")
      ∧ ((none : Option (List (Option Nat))).isSome = true
        ↔ FoldedEventWithStatus (createDataTables [skipJobResult]) [skipJobResult] 0 0
            "CRASH")
      ∧ ((none : Option (List (Option String))).isSome = true
        ↔ FoldedEventWithStatus (createDataTables [skipJobResult]) [skipJobResult] 0 0
            "CRASH")
      ∧ ([1, 2] : List Int).length = ([0, 0] : List Nat).length
      ∧ ([1000, 2000] : List Int).length = ([0, 0] : List Nat).length
      ∧ (∀ ml, (some [some 0, none] : Option (List (Option Nat))) = some ml →
          ml.length = ([0, 0] : List Nat).length)
      ∧ (∀ cl, (none : Option (List (Option Nat))) = some cl →
          cl.length = ([0, 0] : List Nat).length)
      ∧ (∀ dl, (none : Option (List (Option String))) = some dl →
          dl.length = ([0, 0] : List Nat).length)) :=
  ⟨by decide,
    c2_side_channel_shape [skipJobResult] 0 0
      { taskIdIds := [0, 0], durations := [1, 2], timestamps := [1000, 2000],
        messageIds := some [some 0, none], crashSignatureIds := none,
        minidumps := none }
      (by decide)⟩

/-- Claim C5: within one encoding pass every string table is duplicate-free
(each string has exactly one id), ids are assigned in first-seen order over
the input iteration sequence, and every id stored in the task info, test
info and `testRuns` structures is a valid index of its table. -/
theorem c5_interning_tables (results : List JobResult) :
    ((createDataTables results).tables.jobNames.Nodup
      ∧ (createDataTables results).tables.testPaths.Nodup
      ∧ (createDataTables results).tables.testNames.Nodup
      ∧ (createDataTables results).tables.repositories.Nodup
      ∧ (createDataTables results).tables.statuses.Nodup
      ∧ (createDataTables results).tables.taskIds.Nodup
      ∧ (createDataTables results).tables.messages.Nodup
      ∧ (createDataTables results).tables.crashSignatures.Nodup)
    ∧ ((createDataTables results).tables.jobNames = firstSeen (jobNameEncounters results)
      ∧ (createDataTables results).tables.repositories
          = firstSeen (repositoryEncounters results)
      ∧ (createDataTables results).tables.statuses = firstSeen (statusEncounters results)
      ∧ (createDataTables results).tables.taskIds = firstSeen (taskIdEncounters results)
      ∧ (createDataTables results).tables.messages = firstSeen (messageEncounters results)
      ∧ (createDataTables results).tables.crashSignatures
          = firstSeen (crashSigEncounters results)
      ∧ (createDataTables results).testIdMap = firstSeen (allPaths results)
      ∧ (createDataTables results).tables.testPaths
          = firstSeen ((firstSeen (allPaths results)).map dirPart)
      ∧ (createDataTables results).tables.testNames
          = firstSeen ((firstSeen (allPaths results)).map namePart))
    ∧ ((∀ x ∈ (createDataTables results).taskRepositoryIds,
          x < (createDataTables results).tables.repositories.length)
      ∧ (∀ x ∈ (createDataTables results).taskJobNameIds,
          x < (createDataTables results).tables.jobNames.length)
      ∧ (∀ x ∈ (createDataTables results).testPathIds,
          x < (createDataTables results).tables.testPaths.length)
      ∧ (∀ x ∈ (createDataTables results).testNameIds,
          x < (createDataTables results).tables.testNames.length)
      ∧ (∀ t s g, getSlot (createDataTables results) t s = some g →
          s < (createDataTables results).tables.statuses.length
          ∧ (∀ x ∈ g.taskIdIds, x < (createDataTables results).tables.taskIds.length)
          ∧ (∀ ml, g.messageIds = some ml → ∀ o ∈ ml, ∀ x, o = some x →
              x < (createDataTables results).tables.messages.length)
          ∧ (∀ cl, g.crashSignatureIds = some cl → ∀ o ∈ cl, ∀ x, o = some x →
              x < (createDataTables results).tables.crashSignatures.length))) := by
  have hP := createDataTables_pstate results
  refine ⟨⟨hP.inv.ndJobNames, hP.inv.ndTestPaths, hP.inv.ndTestNames, hP.inv.ndRepos,
    hP.inv.ndStatuses, hP.inv.ndTaskIds, hP.inv.ndMessages, hP.inv.ndCrashSigs⟩,
    ⟨hP.jn, hP.rp, hP.stt, hP.tid, hP.msg, hP.csg, hP.map, hP.tps, hP.tns⟩,
    hP.inv.validRepo, hP.inv.validJob, hP.inv.validPath, hP.inv.validName, ?_⟩
  intro t s g hg
  exact ⟨slot_status_lt hP.inv hg, (hP.inv.groups t s g hg).taskValid,
    (hP.inv.groups t s g hg).msgValid, (hP.inv.groups t s g hg).csValid⟩

/-- Claim C6: `testRuns[t][s]` is a hole (`none`, not an empty structure)
exactly when no event resolving to the id pair `(t, s)` was folded in
during the encoding pass. -/
theorem c6_hole_iff_no_event (results : List JobResult) (t s : Nat) :
    getSlot (createDataTables results) t s = none
      ↔ ¬ FoldedEvent (createDataTables results) results t s := by
  have hP := createDataTables_pstate results
  rw [← hP.occ t s]
  rcases h : getSlot (createDataTables results) t s with _ | g
  · simp
  · simp

end ATFY
